import Mathlib

/-!
# NotificationIcon.NET native tray: menu binding, dispatch and the pump

A shallow embedding of `src/native/src/tray.h`, `tray_windows.h` and
`tray_linux.h`.

* A `struct tray_menu*` is modelled by the list of records that the pointer
  points to (`m++` is the tail of the list); a record whose `text` is `none`
  (NULL) ends a sibling array.  A list that ends without such a record is
  read as if the terminating record followed it.
* The address of a record (what the code stores in `dwItemData` or passes as
  signal data) is the list of indices that leads to it from `tray->menu`
  (`Ptr`).  Distinct records of a tree have distinct addresses.
* Function pointers (`cb`) and `context` are natural numbers; a callback
  invocation `menu->cb(menu)` is recorded as an effect, its body is
  application code and is not modelled.
* Native menus are values: a popup menu is the list of its items, an item with
  a submenu holds the submenu.  The code never mutates a submenu after
  attaching it, so sharing plays no role.
-/

namespace Tray

/-! ## tray.h -/

/-- Address of a `struct tray_menu` record: the indices leading to it from
`tray->menu` (index in the top array, then index in that record's submenu
array, and so on). -/
abbrev Ptr := List Nat

/-- The record `struct tray_menu` of tray.h.  `text = none` is a NULL text,
`cb = none` a NULL callback, `submenu = none` a NULL submenu pointer; a
non-NULL submenu pointer is the array it points to. -/
inductive tray_menu where
  | mk (text : Option String) (disabled : Int) (checked : Int)
       (cb : Option Nat) (context : Nat) (submenu : Option (List tray_menu))

namespace tray_menu

def text : tray_menu → Option String
  | mk t _ _ _ _ _ => t

def disabled : tray_menu → Int
  | mk _ d _ _ _ _ => d

def checked : tray_menu → Int
  | mk _ _ c _ _ _ => c

def cb : tray_menu → Option Nat
  | mk _ _ _ f _ _ => f

def context : tray_menu → Nat
  | mk _ _ _ _ x _ => x

def submenu : tray_menu → Option (List tray_menu)
  | mk _ _ _ _ _ s => s

end tray_menu

/-- The record `struct tray` of tray.h. -/
structure tray where
  icon : String
  menu : Option (List tray_menu)

/-- Reading the record at address `p` in the array `m` (`*p`): follow the
indices, going through the `submenu` pointer of each record on the way.
`none` when the address does not lead to a record. -/
def deref (m : List tray_menu) : Ptr → Option tray_menu
  | [] => none
  | i :: q =>
    match m[i]? with
    | none => none
    | some e =>
      match q with
      | [] => some e
      | _ :: _ =>
        match e.submenu with
        | none => none
        | some s => deref s q

/-- Reading a record of the tree held by `tray->menu`. -/
def tray.deref (t : tray) (p : Ptr) : Option tray_menu :=
  match t.menu with
  | none => none
  | some m => Tray.deref m p

/-- The test `strcmp(m->text, "-") == 0` of both binders. -/
def isSeparator (text : String) : Bool := text == "-"

/-! ### The menu tree a `tray_menu` array describes

The sibling sequence of an array is what precedes the first record with a
NULL text.  A separator is a leaf of the menu: what its `submenu` field points
to is not part of the menu. -/

/-- The sibling sequence of an array: the records before the first one whose
text is NULL. -/
def siblings : List tray_menu → List tray_menu
  | [] => []
  | e :: rest =>
    match e.text with
    | none => []
    | some _ => e :: siblings rest

mutual
/-- Number of records of the menu tree under the array `m` (separators
included, at every depth). -/
def count (m : List tray_menu) : Nat :=
  match m with
  | [] => 0
  | e :: rest =>
    match e.text with
    | none => 0
    | some t => countNode e t + count rest
termination_by structural m
/-- Number of records of the menu tree under the record `e` with text `t`,
`e` included. -/
def countNode (e : tray_menu) (t : String) : Nat :=
  match e with
  | .mk _ _ _ _ _ (some s) => if isSeparator t then 1 else count s + 1
  | .mk _ _ _ _ _ none => 1
termination_by structural e
end

mutual
/-- The records of the menu tree under the array `m`, with their addresses, a
record before the records of its submenu (pre-order).  `p` is the address
of the record owning the array and `i` the index of the head of `m` in it. -/
def nodes (p : Ptr) (i : Nat) (m : List tray_menu) : List (Ptr × tray_menu) :=
  match m with
  | [] => []
  | e :: rest =>
    match e.text with
    | none => []
    | some t => nodesNode (p ++ [i]) e t ++ nodes p (i + 1) rest
termination_by structural m
/-- The record `e` at address `a` followed by the records of its submenu. -/
def nodesNode (a : Ptr) (e : tray_menu) (t : String) : List (Ptr × tray_menu) :=
  match e with
  | .mk x d c f y (some s) =>
    if isSeparator t then [(a, .mk x d c f y (some s))]
    else (a, .mk x d c f y (some s)) :: nodes a 0 s
  | .mk x d c f y none => [(a, .mk x d c f y none)]
termination_by structural e
end

mutual
/-- The records of the menu tree under the array `m`, with their addresses, the
records of a submenu before the record that owns it (post-order). -/
def postOrder (p : Ptr) (i : Nat) (m : List tray_menu) : List (Ptr × tray_menu) :=
  match m with
  | [] => []
  | e :: rest =>
    match e.text with
    | none => []
    | some t => postOrderNode (p ++ [i]) e t ++ postOrder p (i + 1) rest
termination_by structural m
/-- The records of the submenu of `e`, then `e` itself. -/
def postOrderNode (a : Ptr) (e : tray_menu) (t : String) : List (Ptr × tray_menu) :=
  match e with
  | .mk x d c f y (some s) =>
    if isSeparator t then [(a, .mk x d c f y (some s))]
    else postOrder a 0 s ++ [(a, .mk x d c f y (some s))]
  | .mk x d c f y none => [(a, .mk x d c f y none)]
termination_by structural e
end

/-- The records of the menu tree of a `tray`. -/
def tray.nodes (t : tray) : List (Ptr × tray_menu) :=
  Tray.nodes [] 0 (t.menu.getD [])

/-- The records of the menu tree of a `tray` in post-order. -/
def tray.postOrder (t : tray) : List (Ptr × tray_menu) :=
  Tray.postOrder [] 0 (t.menu.getD [])

/-- Number of records of the menu tree of a `tray`. -/
def tray.count (t : tray) : Nat :=
  Tray.count (t.menu.getD [])

/-- A record is a separator when its text is "-". -/
def tray_menu.isSep (e : tray_menu) : Bool :=
  match e.text with
  | some t => isSeparator t
  | none => false


/-! ## tray_windows.h -/

namespace Windows

/-! ### Constants (tray_windows.h and winuser.h) -/

def ID_TRAY_FIRST : Nat := 1000
def WM_USER : Nat := 0x0400
def WM_TRAY_CALLBACK_MESSAGE : Nat := WM_USER + 1
def WM_DESTROY : Nat := 0x0002
def WM_CLOSE : Nat := 0x0010
def WM_QUIT : Nat := 0x0012
def WM_COMMAND : Nat := 0x0111
def WM_INITMENUPOPUP : Nat := 0x0117
def WM_LBUTTONUP : Nat := 0x0202
def WM_RBUTTONUP : Nat := 0x0205
def MF_BYPOSITION : Nat := 0x400
def MF_SEPARATOR : Nat := 0x800
def MFS_DISABLED : Nat := 0x3
def MFS_CHECKED : Nat := 0x8
def MIIM_STATE : Nat := 0x1
def MIIM_ID : Nat := 0x2
def MIIM_SUBMENU : Nat := 0x4
def MIIM_TYPE : Nat := 0x10
def MIIM_DATA : Nat := 0x20
def TRUE : Nat := 1
def FALSE : Nat := 0
/-- Number of values of a UINT. -/
def UINT_SIZE : Nat := 2 ^ 32
/-- Number of values of a WORD. -/
def WORD_SIZE : Nat := 2 ^ 16

/-! ### Native menus (user32) -/

/-- An item of a native menu.  `hSubMenu` is the popup menu the item opens,
`dwItemData` the application value stored with the item (0 is `none`). -/
inductive MENUITEM where
  | mk (fType fState wID : Nat) (hSubMenu : Option (List MENUITEM))
       (dwItemData : Option Ptr) (dwTypeData : Option String)

/-- A native menu: its items in display order. -/
abbrev HMENU := List MENUITEM

namespace MENUITEM

def fType : MENUITEM → Nat
  | mk t _ _ _ _ _ => t

def fState : MENUITEM → Nat
  | mk _ s _ _ _ _ => s

def wID : MENUITEM → Nat
  | mk _ _ w _ _ _ => w

def hSubMenu : MENUITEM → Option HMENU
  | mk _ _ _ h _ _ => h

def dwItemData : MENUITEM → Option Ptr
  | mk _ _ _ _ d _ => d

def dwTypeData : MENUITEM → Option String
  | mk _ _ _ _ _ x => x

/-- The same item with another submenu. -/
def setSubMenu : MENUITEM → Option HMENU → MENUITEM
  | mk t s w _ d x, h => mk t s w h d x

end MENUITEM

/-- The structure MENUITEMINFO the application fills for InsertMenuItem and
GetMenuItemInfo. -/
structure MENUITEMINFO where
  fMask : Nat
  fType : Nat
  fState : Nat
  wID : Nat
  hSubMenu : Option HMENU
  dwItemData : Option Ptr
  dwTypeData : Option String

/-- The effect of `memset(&item, 0, sizeof(item))`. -/
def MENUITEMINFO.zero : MENUITEMINFO :=
  { fMask := 0, fType := 0, fState := 0, wID := 0, hSubMenu := none,
    dwItemData := none, dwTypeData := none }

/-- The item user32 stores for a MENUITEMINFO: the members selected by
`fMask`, the others zero. -/
def MENUITEM.ofInfo (lpmi : MENUITEMINFO) : MENUITEM :=
  .mk (if lpmi.fMask &&& MIIM_TYPE ≠ 0 then lpmi.fType else 0)
      (if lpmi.fMask &&& MIIM_STATE ≠ 0 then lpmi.fState else 0)
      (if lpmi.fMask &&& MIIM_ID ≠ 0 then lpmi.wID else 0)
      (if lpmi.fMask &&& MIIM_SUBMENU ≠ 0 then lpmi.hSubMenu else none)
      (if lpmi.fMask &&& MIIM_DATA ≠ 0 then lpmi.dwItemData else none)
      (if lpmi.fMask &&& MIIM_TYPE ≠ 0 then lpmi.dwTypeData else none)

/-- The function `CreatePopupMenu()`: a menu without items. -/
def CreatePopupMenu : HMENU := []

/-- The item at a location of a menu: `[i]` is item `i` of the menu,
`i :: q` is location `q` of the submenu of item `i`. -/
def itemAt (h : HMENU) : Ptr → Option MENUITEM
  | [] => none
  | i :: q =>
    match h[i]? with
    | none => none
    | some it =>
      match q with
      | [] => some it
      | _ :: _ =>
        match it.hSubMenu with
        | none => none
        | some sub => itemAt sub q

mutual
/-- Search by command identifier, as user32 does it for MF_BYCOMMAND: the
items of a menu are visited in order; an item with a submenu is searched
inside first and is itself only a fallback when its own identifier matches;
an item without submenu whose identifier matches ends the search.  The
result is the location of the item found; `i` is the index of the head of
`items`. -/
def MENU_FindItem (items : List MENUITEM) (id : Nat) (i : Nat) (fallback : Option Ptr) :
    Option Ptr :=
  match items with
  | [] => fallback
  | item :: rest =>
    match MENU_FindItem_item item id with
    | some (some q) => some (i :: q)
    | some none => MENU_FindItem rest id (i + 1) (some [i])
    | none => MENU_FindItem rest id (i + 1) fallback
termination_by structural items
/-- The search at one item: `some (some q)` a definite find at `q` relative to
the item (`[]` is the item itself), `some none` the item as fallback,
`none` nothing. -/
def MENU_FindItem_item (item : MENUITEM) (id : Nat) : Option (Option Ptr) :=
  match item with
  | .mk _ _ w (some sub) _ _ =>
    match MENU_FindItem sub id 0 none with
    | some q => some (some q)
    | none => if w = id then some none else none
  | .mk _ _ w none _ _ => if w = id then some (some []) else none
termination_by structural item
end

/-- Inserting `new` before the item at a location of a menu. -/
def insertAt (h : HMENU) (new : MENUITEM) : Ptr → HMENU
  | [] => h
  | i :: q =>
    match q with
    | [] => h.take i ++ new :: h.drop i
    | _ :: _ =>
      match h[i]? with
      | none => h
      | some it =>
        match it.hSubMenu with
        | none => h
        | some sub => h.take i ++ it.setSubMenu (some (insertAt sub new q)) :: h.drop (i + 1)

/-- Where user32 puts a new item: by position at `pos`, or at the end when
`pos` is past the last item; by command before the item with identifier
`pos`, or at the end of `hMenu` when there is no such item. -/
def MENU_InsertItem (hMenu : HMENU) (pos flags : Nat) (new : MENUITEM) : HMENU :=
  if flags &&& MF_BYPOSITION ≠ 0 then
    if pos > hMenu.length then hMenu ++ [new]
    else hMenu.take pos ++ new :: hMenu.drop pos
  else
    match MENU_FindItem hMenu pos 0 none with
    | none => hMenu ++ [new]
    | some loc => insertAt hMenu new loc

/-- The item `InsertMenu` creates: type and identifier as given, no item data,
no state; a separator has no text.  (user32 documents `uIDNewItem` as
ignored for a separator; it is kept here as passed.) -/
def InsertMenu_item (uFlags uIDNewItem : Nat) (lpNewItem : String) : MENUITEM :=
  .mk (uFlags &&& MF_SEPARATOR) 0 uIDNewItem none none
    (if uFlags &&& MF_SEPARATOR ≠ 0 then none else some lpNewItem)

/-- The function `InsertMenu(hMenu, uPosition, uFlags, uIDNewItem, lpNewItem)`. -/
def InsertMenu (hMenu : HMENU) (uPosition uFlags uIDNewItem : Nat) (lpNewItem : String) :
    HMENU :=
  MENU_InsertItem hMenu uPosition uFlags (InsertMenu_item uFlags uIDNewItem lpNewItem)

/-- The function `InsertMenuItem(hmenu, item, fByPosition, lpmi)`. -/
def InsertMenuItem (hmenu : HMENU) (item : Nat) (fByPosition : Nat) (lpmi : MENUITEMINFO) :
    HMENU :=
  MENU_InsertItem hmenu item (if fByPosition ≠ 0 then MF_BYPOSITION else 0)
    (MENUITEM.ofInfo lpmi)

/-- The function `GetMenuItemInfo(hmenu, item, fByPosition, lpmii)`: `none` when the call
fails (no such item), else the members selected by `lpmii.fMask`. -/
def GetMenuItemInfo (hmenu : HMENU) (item : Nat) (fByPosition : Nat) (lpmii : MENUITEMINFO) :
    Option MENUITEMINFO :=
  let loc := if fByPosition ≠ 0 then some [item] else MENU_FindItem hmenu item 0 none
  match loc with
  | none => none
  | some q =>
    match itemAt hmenu q with
    | none => none
    | some it =>
      some { lpmii with
        fType := if lpmii.fMask &&& MIIM_TYPE ≠ 0 then it.fType else lpmii.fType
        fState := if lpmii.fMask &&& MIIM_STATE ≠ 0 then it.fState else lpmii.fState
        wID := if lpmii.fMask &&& MIIM_ID ≠ 0 then it.wID else lpmii.wID
        hSubMenu := if lpmii.fMask &&& MIIM_SUBMENU ≠ 0 then it.hSubMenu else lpmii.hSubMenu
        dwItemData := if lpmii.fMask &&& MIIM_DATA ≠ 0 then it.dwItemData else lpmii.dwItemData }

/-! ### The binder `_tray_menu` -/

/-- Lines 102 to 120 of tray_windows.h: the MENUITEMINFO filled for a record
that is not a separator.  `a` is the address of the record (`m`), `hSub` the
menu built for its submenu when the record has one, `id` the value of `*id`
after the submenu was built. -/
def _tray_menu_item (a : Ptr) (text : String) (disabled checked : Int) (hSub : Option HMENU)
    (id : Nat) : MENUITEMINFO :=
  let item := MENUITEMINFO.zero
  let item := { item with fMask := MIIM_ID ||| MIIM_TYPE ||| MIIM_STATE ||| MIIM_DATA }
  let item := { item with fType := 0 }
  let item := { item with fState := 0 }
  let item :=
    match hSub with
    | some h => { item with fMask := item.fMask ||| MIIM_SUBMENU, hSubMenu := some h }
    | none => item
  let item := if disabled ≠ 0 then { item with fState := item.fState ||| MFS_DISABLED } else item
  let item :=
    if checked ≠ 0 ∧ checked ≠ -1 then { item with fState := item.fState ||| MFS_CHECKED }
    else item
  let item := { item with wID := id }
  let item := { item with dwTypeData := some text }
  let item := { item with dwItemData := some a }
  item

mutual
/-- The `for` loop of `_tray_menu`: `m` is the pointer `m` (the rest of the
array), `p` the address of the record owning the array, `i` the index of the
head of `m` in it, `hmenu` the menu under construction and `id` the value of
`*id`.  Returns the menu and the final `*id`. -/
def _tray_menu_loop (p : Ptr) (i : Nat) (m : List tray_menu) (hmenu : HMENU) (id : Nat) :
    HMENU × Nat :=
  match m with
  | [] => (hmenu, id)
  | e :: rest =>
    match e.text with
    | none => (hmenu, id)
    | some t =>
      let r := _tray_menu_body (p ++ [i]) e t hmenu id
      _tray_menu_loop p (i + 1) rest r.1 ((r.2 + 1) % UINT_SIZE)
termination_by structural m
/-- The body of the loop for the record `e` at address `a` with text `t`. -/
def _tray_menu_body (a : Ptr) (e : tray_menu) (t : String) (hmenu : HMENU) (id : Nat) :
    HMENU × Nat :=
  match e with
  | .mk _ disabled checked _ _ (some s) =>
    if isSeparator t then (InsertMenu hmenu id MF_SEPARATOR TRUE "", id)
    else
      let r := _tray_menu_loop a 0 s CreatePopupMenu id
      (InsertMenuItem hmenu r.2 TRUE (_tray_menu_item a t disabled checked (some r.1) r.2), r.2)
  | .mk _ disabled checked _ _ none =>
    if isSeparator t then (InsertMenu hmenu id MF_SEPARATOR TRUE "", id)
    else (InsertMenuItem hmenu id TRUE (_tray_menu_item a t disabled checked none id), id)
termination_by structural e
end

/-- The function `_tray_menu(m, id)` for the array at `m` (`none` is NULL) owned by the
record at address `p`: the menu built and the final value of `*id`. -/
def _tray_menu (p : Ptr) (m : Option (List tray_menu)) (id : Nat) : HMENU × Nat :=
  match m with
  | none => (CreatePopupMenu, id)
  | some l => _tray_menu_loop p 0 l CreatePopupMenu id

/-! ### Reading a native menu -/

mutual
/-- All items of a menu at every depth, the items of a submenu before the item
that opens it. -/
def allItems (h : List MENUITEM) : List MENUITEM :=
  match h with
  | [] => []
  | it :: rest => allItems_item it ++ allItems rest
termination_by structural h
/-- The items of the submenu of an item, then the item. -/
def allItems_item (it : MENUITEM) : List MENUITEM :=
  match it with
  | .mk t s w (some sub) d x => allItems sub ++ [.mk t s w (some sub) d x]
  | .mk t s w none d x => [.mk t s w none d x]
termination_by structural it
end

/-- The handle of the record at address `a` in a native menu: the identifier
of the item whose item data is `a`. -/
def handle (h : HMENU) (a : Ptr) : Option Nat :=
  ((allItems h).find? (fun it => it.dwItemData == some a)).map MENUITEM.wID

/-- The separator item the binder inserts (line 99). -/
def separatorItem : MENUITEM := InsertMenu_item MF_SEPARATOR TRUE ""

mutual
/-- Closed form of the menu `_tray_menu` builds for the array `m` from the
counter value `id` when the counter does not wrap (see
`_tray_menu_loop_eq`): one item per record of the sibling sequence, in
order. -/
def menuOf (p : Ptr) (i : Nat) (m : List tray_menu) (id : Nat) : HMENU :=
  match m with
  | [] => []
  | e :: rest =>
    match e.text with
    | none => []
    | some t => itemOf (p ++ [i]) e t id :: menuOf p (i + 1) rest (id + countNode e t)
termination_by structural m
/-- Closed form of the item built for the record `e`, the counter being `id`
when the loop reaches the record. -/
def itemOf (a : Ptr) (e : tray_menu) (t : String) (id : Nat) : MENUITEM :=
  match e with
  | .mk _ disabled checked _ _ (some s) =>
    if isSeparator t then separatorItem
    else MENUITEM.ofInfo
      (_tray_menu_item a t disabled checked (some (menuOf a 0 s id)) (id + count s))
  | .mk _ disabled checked _ _ none =>
    if isSeparator t then separatorItem
    else MENUITEM.ofInfo (_tray_menu_item a t disabled checked none id)
termination_by structural e
end

/-- An item made by the binder for the records `L`: a separator item, or an
item of type 0 whose item data is the address of a record of `L` that is
not a separator. -/
def BinderItem (L : List (Ptr × tray_menu)) (it : MENUITEM) : Prop :=
  it.setSubMenu none = separatorItem ∨
  (it.fType = 0 ∧ ∃ x ∈ L, x.2.isSep = false ∧ it.dwItemData = some x.1)

/-- The item the binder stores for the record `e` at address `a` when the
counter is `k` at the insertion, its submenu left out. -/
def expectedItem (x : Nat × Ptr × tray_menu) : MENUITEM :=
  if x.2.2.isSep then separatorItem
  else (MENUITEM.ofInfo (_tray_menu_item x.2.1 (x.2.2.text.getD "") x.2.2.disabled
    x.2.2.checked none x.1))

/-! ### The session: statics, message queue, effects -/

/-- The structure MSG. `hwnd = 0` is a NULL window handle. -/
structure MSG where
  hwnd : Nat
  message : Nat
  wParam : Nat
  lParam : Nat
deriving DecidableEq

/-- What the code does to the outside, in the order it does it. -/
inductive Effect where
  | callback (cb : Nat) (arg : Ptr)
  | DefWindowProc (msg wparam lparam : Nat)
  | SetForegroundWindow
  | TranslateMessage (msg : MSG)
  | DispatchMessage (msg : MSG)
  | DestroyMenu (h : HMENU)
  | DestroyIcon (icon : String)
  | DestroyWindow

/-- The answers of the operating system that the code cannot determine:
whether RegisterClassEx succeeds, the handle CreateWindowEx returns (0 on
failure), the position GetCursorPos gives (`none` on failure), the value
TrackPopupMenu returns (the identifier the user picked, 0 for none) and
whether GetMessage fails. -/
structure Env where
  RegisterClassEx : Bool
  CreateWindowEx : Nat
  GetCursorPos : Option (Int × Int)
  TrackPopupMenu : Nat
  GetMessageFails : Bool

/-- The statics of tray_windows.h (`hwnd`, `hmenu`, `nid.hIcon`) and the state
of user32 and the shell seen by the thread that pumps: whether the window
`hwnd` exists, whether the shell shows the icon, the posted messages of the
thread in arrival order, the quit request of PostQuitMessage, and the
effects so far. -/
structure Win where
  hwnd : Nat
  hmenu : Option HMENU
  hIcon : Option String
  window : Bool
  shellIcon : Option (Option String)
  thread : Nat
  queue : List MSG
  quitPosted : Bool
  log : List Effect

/-- The state of a process that has not called the library: `static HMENU
hmenu = NULL`, zeroed statics, no effect yet; `thread` is the thread that
will pump and `queue` its posted messages. -/
def Win.start (thread : Nat) (queue : List MSG) : Win :=
  { hwnd := 0, hmenu := none, hIcon := none, window := false, shellIcon := none,
    thread := thread, queue := queue, quitPosted := false,
    log := [] }

def Win.push (s : Win) (e : Effect) : Win := { s with log := s.log ++ [e] }

/-- The callbacks invoked in a log, in order, each with its argument. -/
def callbacks : List Effect → List (Nat × Ptr)
  | [] => []
  | .callback f a :: rest => (f, a) :: callbacks rest
  | _ :: rest => callbacks rest

/-- The function `DefWindowProc(hwnd, msg, wparam, lparam)`: the default handling, recorded;
none of the state modelled here changes. -/
def DefWindowProc (s : Win) (msg wparam lparam : Nat) : Int × Win :=
  (0, s.push (.DefWindowProc msg wparam lparam))

/-- The function `PostQuitMessage(nExitCode)` on the pumping thread: the thread is marked
as quitting; the WM_QUIT message is produced by GetMessage or PeekMessage
once no posted message is left. -/
def PostQuitMessage (s : Win) (_nExitCode : Nat) : Win :=
  { s with quitPosted := true }

/-- The branch `case WM_COMMAND:` of `_tray_wnd_proc` (lines 71 to 90), with the
`DefWindowProc` call that the `break` leads to.  `mem` is the memory of the
application at the time of the call; the result is `none` when the item
data is not the address of a record (the read `menu->cb` is undefined). -/
def _tray_wnd_proc_command (mem : tray) (s : Win) (msg wparam lparam : Nat) :
    Option (Int × Win) :=
  let menuItemId := wparam % UINT_SIZE
  if menuItemId ≥ ID_TRAY_FIRST then
    let item := { MENUITEMINFO.zero with fMask := MIIM_ID ||| MIIM_DATA }
    match s.hmenu with
    | none => some (DefWindowProc s msg wparam lparam)
    | some hmenu =>
      match GetMenuItemInfo hmenu menuItemId FALSE item with
      | some item =>
        match item.dwItemData with
        | some menu =>
          match mem.deref menu with
          | none => none
          | some r =>
            match r.cb with
            | some f => some (0, s.push (.callback f menu))
            | none => some (0, s)
        | none => some (0, s)
      | none => some (0, s)
  else some (DefWindowProc s msg wparam lparam)

/-- The function `DestroyWindow(hwnd)`: the window receives WM_DESTROY (handled by `case
WM_DESTROY:`, which calls `PostQuitMessage(0)`) and is gone. -/
def DestroyWindow (s : Win) : Win :=
  let s := s.push .DestroyWindow
  let s := PostQuitMessage s 0
  { s with window := false }

/-- The window procedure `_tray_wnd_proc(hwnd, msg, wparam, lparam)`.  The tray
window is the only window of its class, so `hwnd` is always the static
`hwnd` of the state and is not passed.  `mem` is the memory of the
application at the time of the call; the result is `none` when a read of a
record is undefined. -/
def _tray_wnd_proc (env : Env) (mem : tray) (s : Win) (msg wparam lparam : Nat) :
    Option (Int × Win) :=
  if msg = WM_CLOSE then some (0, DestroyWindow s)
  else if msg = WM_DESTROY then some (0, PostQuitMessage s 0)
  else if msg = WM_TRAY_CALLBACK_MESSAGE then
    if lparam = WM_LBUTTONUP ∨ lparam = WM_RBUTTONUP then
      match env.GetCursorPos with
      | none => some (DefWindowProc s msg wparam lparam)
      | some _ =>
        let s := s.push .SetForegroundWindow
        match s.hmenu with
        | none => some (DefWindowProc s msg wparam lparam)
        | some _ =>
          let cmd := env.TrackPopupMenu % WORD_SIZE
          if cmd ≠ 0 then
            match _tray_wnd_proc_command mem s WM_COMMAND cmd 0 with
            | none => none
            | some r => some (0, r.2)
          else some (0, s)
    else some (DefWindowProc s msg wparam lparam)
  else if msg = WM_COMMAND then _tray_wnd_proc_command mem s msg wparam lparam
  else some (DefWindowProc s msg wparam lparam)

/-- The function `tray_update(tray)`.  The message WM_INITMENUPOPUP sent to the
window goes to the `DefWindowProc` call of `_tray_wnd_proc` (the numeric
value of the menu handle passed as `wparam` is not modelled); the icon
handle extracted from `tray->icon` is the icon path. -/
def tray_update (s : Win) (t : tray) : Win :=
  let prevmenu := s.hmenu
  let id := ID_TRAY_FIRST
  let s := { s with hmenu := some (_tray_menu [] t.menu id).1 }
  let s := (DefWindowProc s WM_INITMENUPOPUP 0 0).2
  let icon := some t.icon
  let s :=
    match s.hIcon with
    | some old => s.push (.DestroyIcon old)
    | none => s
  let s := { s with hIcon := icon }
  let s := { s with shellIcon := s.shellIcon.map (fun _ => s.hIcon) }
  match prevmenu with
  | some prev => s.push (.DestroyMenu prev)
  | none => s

/-- The function `tray_init(tray)`: the returned int and the new state. -/
def tray_init (env : Env) (s : Win) (t : tray) : Int × Win :=
  if env.RegisterClassEx = false then (-1, s)
  else
    let s := { s with hwnd := env.CreateWindowEx }
    if s.hwnd = 0 then (-1, s)
    else
      let s := { s with window := true }
      let s := { s with hIcon := none }
      let s := { s with shellIcon := some s.hIcon }
      (0, tray_update s t)

/-- What GetMessage and PeekMessage retrieve: the oldest posted message, or,
when none is left and the thread is marked as quitting, WM_QUIT. -/
def nextMessage (s : Win) : Option (MSG × Win) :=
  match s.queue with
  | m :: q => some (m, { s with queue := q })
  | [] =>
    if s.quitPosted then
      some ({ hwnd := 0, message := WM_QUIT, wParam := 0, lParam := 0 },
        { s with quitPosted := false })
    else none

/-- The function `DispatchMessage(&msg)`: a message for the tray window goes to
`_tray_wnd_proc`; a message for no window or for another window does not
reach this code. -/
def DispatchMessage (env : Env) (mem : tray) (s : Win) (msg : MSG) : Option Win :=
  let s := s.push (.DispatchMessage msg)
  if msg.hwnd ≠ 0 ∧ msg.hwnd = s.hwnd ∧ s.window = true then
    match _tray_wnd_proc env mem s msg.message msg.wParam msg.lParam with
    | none => none
    | some r => some r.2
  else some s

/-- The function `tray_loop(blocking)`.  `msg` is the content of the local `MSG msg` at
entry, which the code does not initialise.  The result is `none` when the
call does not return: GetMessage waits on an empty queue with no quit
request, or the window procedure reads an invalid address. -/
def tray_loop (env : Env) (mem : tray) (s : Win) (blocking : Int) (msg : MSG) :
    Option (Int × Win) :=
  let fetched : Option (Option (MSG × Win)) :=
    if blocking ≠ 0 then
      if env.GetMessageFails then some none
      else
        match nextMessage s with
        | none => none
        | some r => some (some r)
    else
      match nextMessage s with
      | none => some (some (msg, s))
      | some r => some (some r)
  match fetched with
  | none => none
  | some none => some (7, s)
  | some (some (msg, s)) =>
    if msg.message = WM_QUIT then some (-1, s)
    else
      let s := s.push (.TranslateMessage msg)
      match DispatchMessage env mem s msg with
      | none => none
      | some s => some (0, s)

/-- The function `tray_exit_from_another_thread(ownerThreadId)` called on thread `current`.
A quit request or a WM_QUIT message for a thread other than the pumping one
does not reach the queue modelled here; the window class is not tracked
(UnregisterClass changes nothing modelled). -/
def tray_exit_from_another_thread (s : Win) (current : Nat) (ownerThreadId : Nat) : Win :=
  let s := { s with shellIcon := none }
  let s :=
    match s.hIcon with
    | some icon => s.push (.DestroyIcon icon)
    | none => s
  let s :=
    match s.hmenu with
    | some h => { s.push (.DestroyMenu h) with hmenu := none }
    | none => s
  let s :=
    if ownerThreadId = 0 then
      if current = s.thread then PostQuitMessage s 0 else s
    else
      if ownerThreadId = s.thread then
        { s with queue := s.queue ++ [{ hwnd := 0, message := WM_QUIT, wParam := 0, lParam := 0 }] }
      else s
  s

/-- The function `tray_exit()` called on thread `current`. -/
def tray_exit (s : Win) (current : Nat) : Win :=
  tray_exit_from_another_thread s current 0

end Windows

/-! ## tray_linux.h -/

namespace Linux

/-! ### GTK widgets and the indicator -/

/-- Which constructor made a menu item. -/
inductive GtkKind where
  | separator_menu_item
  | menu_item
  | check_menu_item
deriving DecidableEq

/-- A menu item widget: its kind, label, toggle state (`active`, meaningful
for a check item), submenu, sensitivity, visibility and the data of the
handlers connected to its "activate" signal (the handler is always
`_tray_menu_cb`). -/
inductive GtkWidget where
  | mk (kind : GtkKind) (label : Option String) (active : Bool)
       (submenu : Option (List GtkWidget)) (sensitive : Bool) (visible : Bool)
       (activate : List Ptr)

/-- A menu shell: its items in display order. -/
abbrev GtkMenuShell := List GtkWidget

namespace GtkWidget

def kind : GtkWidget → GtkKind
  | mk k _ _ _ _ _ _ => k

def label : GtkWidget → Option String
  | mk _ l _ _ _ _ _ => l

def active : GtkWidget → Bool
  | mk _ _ a _ _ _ _ => a

def submenu : GtkWidget → Option GtkMenuShell
  | mk _ _ _ s _ _ _ => s

def sensitive : GtkWidget → Bool
  | mk _ _ _ _ s _ _ => s

def visible : GtkWidget → Bool
  | mk _ _ _ _ _ v _ => v

def activate : GtkWidget → List Ptr
  | mk _ _ _ _ _ _ h => h

end GtkWidget

def gtk_menu_new : GtkMenuShell := []

def gtk_separator_menu_item_new : GtkWidget :=
  .mk .separator_menu_item none false none true false []

def gtk_menu_item_new_with_label (label : String) : GtkWidget :=
  .mk .menu_item (some label) false none true false []

def gtk_check_menu_item_new_with_label (label : String) : GtkWidget :=
  .mk .check_menu_item (some label) false none true false []

def gtk_menu_item_set_submenu : GtkWidget → GtkMenuShell → GtkWidget
  | .mk k l a _ s v h, sub => .mk k l a (some sub) s v h

/-- The function `gtk_check_menu_item_set_active(item, is_active)` on an item without
"activate" handler (the binder connects the handler afterwards). -/
def gtk_check_menu_item_set_active : GtkWidget → Bool → GtkWidget
  | .mk k l _ sub s v h, a => .mk k l a sub s v h

def gtk_widget_set_sensitive : GtkWidget → Bool → GtkWidget
  | .mk k l a sub _ v h, s => .mk k l a sub s v h

/-- The function `g_signal_connect(item, "activate", G_CALLBACK(_tray_menu_cb), data)`. -/
def g_signal_connect_activate : GtkWidget → Ptr → GtkWidget
  | .mk k l a sub s v h, data => .mk k l a sub s v (h ++ [data])

def gtk_widget_show : GtkWidget → GtkWidget
  | .mk k l a sub s _ h => .mk k l a sub s true h

def gtk_menu_shell_append (menu : GtkMenuShell) (item : GtkWidget) : GtkMenuShell :=
  menu ++ [item]

/-- The widget at a location of a menu shell: `[i]` is item `i`, `i :: q` is
location `q` of the submenu of item `i`. -/
def widgetAt (menu : GtkMenuShell) : Ptr → Option GtkWidget
  | [] => none
  | i :: q =>
    match menu[i]? with
    | none => none
    | some w =>
      match q with
      | [] => some w
      | _ :: _ =>
        match w.submenu with
        | none => none
        | some sub => widgetAt sub q

/-! ### The binder and the handler -/

/-- The function `_tray_menu_cb(item, data)`: the calls made (`m->cb(m)`), or `none` when
the call is undefined (`data` is not the address of a record, or `m->cb` is
NULL).  `mem` is the memory of the application at the time of the call. -/
def _tray_menu_cb (mem : tray) (data : Ptr) : Option (Nat × Ptr) :=
  match mem.deref data with
  | none => none
  | some m =>
    match m.cb with
    | none => none
    | some f => some (f, data)

/-- Lines 61 to 64 of tray_linux.h, common to the three kinds of
non-separator item. -/
def _tray_menu_finish (a : Ptr) (item : GtkWidget) (disabled : Int) (cb : Option Nat) :
    GtkWidget :=
  let item := gtk_widget_set_sensitive item (disabled = 0)
  match cb with
  | some _ => g_signal_connect_activate item a
  | none => item

mutual
/-- The `for` loop of `_tray_menu`: `m` is the pointer `m` (the rest of the
array), `p` the address of the record owning the array, `i` the index of the
head of `m` in it and `menu` the shell under construction. -/
def _tray_menu_loop (p : Ptr) (i : Nat) (m : List tray_menu) (menu : GtkMenuShell) :
    GtkMenuShell :=
  match m with
  | [] => menu
  | e :: rest =>
    match e.text with
    | none => menu
    | some t =>
      let item := _tray_menu_body (p ++ [i]) e t
      let item := gtk_widget_show item
      _tray_menu_loop p (i + 1) rest (gtk_menu_shell_append menu item)
termination_by structural m
/-- The item built by the body of the loop for the record `e` at address `a`
with text `t` (lines 45 to 65). -/
def _tray_menu_body (a : Ptr) (e : tray_menu) (t : String) : GtkWidget :=
  match e with
  | .mk _ disabled _ cb _ (some s) =>
    if isSeparator t then gtk_separator_menu_item_new
    else
      let item := gtk_menu_item_new_with_label t
      let item := gtk_menu_item_set_submenu item (_tray_menu_loop a 0 s gtk_menu_new)
      _tray_menu_finish a item disabled cb
  | .mk _ disabled checked cb _ none =>
    if isSeparator t then gtk_separator_menu_item_new
    else if checked = -1 then
      _tray_menu_finish a (gtk_menu_item_new_with_label t) disabled cb
    else
      let item := gtk_check_menu_item_new_with_label t
      let item := gtk_check_menu_item_set_active item (checked ≠ 0)
      _tray_menu_finish a item disabled cb
termination_by structural e
end

/-- The function `_tray_menu(m)` for the array at `m` (`none` is NULL) owned by the record
at address `p`. -/
def _tray_menu (p : Ptr) (m : Option (List tray_menu)) : GtkMenuShell :=
  match m with
  | none => gtk_menu_new
  | some l => _tray_menu_loop p 0 l gtk_menu_new

/-! ### Reading a menu shell -/

/-- Closed form of what the loop of `_tray_menu` appends for the array `m`
(see `Linux_tray_menu_loop_eq`): one shown item per record of the sibling
sequence, in order. -/
def widgetsOf (p : Ptr) (i : Nat) (m : List tray_menu) : GtkMenuShell :=
  match m with
  | [] => []
  | e :: rest =>
    match e.text with
    | none => []
    | some t => gtk_widget_show (_tray_menu_body (p ++ [i]) e t) :: widgetsOf p (i + 1) rest

mutual
/-- All widgets of a menu shell at every depth, the items of a submenu before
the item that opens it. -/
def allWidgets (m : List GtkWidget) : List GtkWidget :=
  match m with
  | [] => []
  | w :: rest => allWidgets_item w ++ allWidgets rest
termination_by structural m
/-- The items of the submenu of a widget, then the widget. -/
def allWidgets_item (w : GtkWidget) : List GtkWidget :=
  match w with
  | .mk k l a (some sub) s v h => allWidgets sub ++ [.mk k l a (some sub) s v h]
  | .mk k l a none s v h => [.mk k l a none s v h]
termination_by structural w
end

/-! ### The session -/

/-- An AppIndicator object. -/
structure AppIndicator where
  id : String
  icon : String
  active : Bool
  menu : Option GtkMenuShell

/-- What an iteration of the GTK main loop can process: the emission of the
"activate" signal on the menu item at a location of the indicator menu, or
an event that reaches no handler of this code. -/
inductive GtkEvent where
  | activate (item : Ptr)
  | other

/-- The statics of tray_linux.h (`indicator`, `loop_result`), the events
pending in the main loop and the callbacks invoked so far. -/
structure Gtk where
  indicator : Option AppIndicator
  loop_result : Int
  events : List GtkEvent
  calls : List (Nat × Ptr)

/-- The state of a process that has not called the library: `static
AppIndicator* indicator = NULL`, `static int loop_result = 0`. -/
def Gtk.start (events : List GtkEvent) : Gtk :=
  { indicator := none, loop_result := 0, events := events, calls := [] }

/-- The function `tray_update(tray)`. -/
def tray_update (s : Gtk) (t : tray) : Gtk :=
  match s.indicator with
  | none => s
  | some ind =>
    let ind := { ind with icon := t.icon }
    let ind := { ind with menu := some (_tray_menu [] t.menu) }
    { s with indicator := some ind }

/-- The function `tray_init(tray)`; `gtk_init_check` is the answer of `gtk_init_check(0,
NULL)`. -/
def tray_init (gtk_init_check : Bool) (s : Gtk) (t : tray) : Int × Gtk :=
  if gtk_init_check = false then (-1, s)
  else
    let s := { s with indicator := some { id := "tray-id", icon := t.icon, active := false,
                                          menu := none } }
    let s := { s with indicator := s.indicator.map (fun ind => { ind with active := true }) }
    (0, tray_update s t)

/-- Running the handlers connected to "activate" on a widget, in connection
order. -/
def emit_activate (mem : tray) (s : Gtk) : List Ptr → Option Gtk
  | [] => some s
  | data :: rest =>
    match _tray_menu_cb mem data with
    | none => none
    | some c => emit_activate mem { s with calls := s.calls ++ [c] } rest

/-- The function `gtk_main_iteration_do(blocking)`: processes the oldest pending event;
with none pending it returns at once when not blocking and does not return
(`none`) when blocking.  `none` also when a handler call is undefined. -/
def gtk_main_iteration_do (mem : tray) (s : Gtk) (blocking : Int) : Option Gtk :=
  match s.events with
  | [] => if blocking ≠ 0 then none else some s
  | ev :: rest =>
    let s := { s with events := rest }
    match ev with
    | .other => some s
    | .activate loc =>
      match s.indicator with
      | none => some s
      | some ind =>
        match ind.menu with
        | none => some s
        | some menu =>
          match widgetAt menu loc with
          | none => some s
          | some w => emit_activate mem s w.activate

/-- The function `tray_loop(blocking)`: the returned int and the new state, `none` when the
call does not return. -/
def tray_loop (mem : tray) (s : Gtk) (blocking : Int) : Option (Int × Gtk) :=
  match gtk_main_iteration_do mem s blocking with
  | none => none
  | some s => some (s.loop_result, s)

/-- The function `tray_exit()`. -/
def tray_exit (s : Gtk) : Gtk := { s with loop_result := -1 }

end Linux

/-! ## Sample data -/

/-- A plain record "A" with callback 1. -/
def sample_A : tray_menu := .mk (some "A") 0 (-1) (some 1) 0 none

/-- A checkable record "B" with callback 2. -/
def sample_B : tray_menu := .mk (some "B") 0 0 (some 2) 0 none

/-- A separator. -/
def sample_sep : tray_menu := .mk (some "-") 0 (-1) none 0 none

/-- The record that ends an array. -/
def sample_end : tray_menu := .mk none 0 0 none 0 none

/-- A record "P" whose submenu is A, separator, B. -/
def sample_P : tray_menu :=
  .mk (some "P") 0 (-1) none 0 (some [sample_A, sample_sep, sample_B, sample_end])

/-- A tray whose menu is P, separator, B. -/
def sample_tray : tray :=
  { icon := "icon.ico", menu := some [sample_P, sample_sep, sample_B, sample_end] }

/-- Answers of the operating system in which everything succeeds and the user
picks nothing. -/
def sample_env : Windows.Env :=
  { RegisterClassEx := true, CreateWindowEx := 1, GetCursorPos := some (0, 0),
    TrackPopupMenu := 0, GetMessageFails := false }

/-- A tray whose menu is the single record A. -/
def sample_tray_1 : tray :=
  { icon := "icon.ico", menu := some [sample_A, sample_end] }

/-- A tray whose menu is B, A. -/
def sample_tray_2 : tray :=
  { icon := "icon.ico", menu := some [sample_B, sample_A, sample_end] }

/-- A record "Q" marked checked that has a submenu. -/
def sample_Q : tray_menu := .mk (some "Q") 0 1 none 0 (some [sample_A, sample_end])

/-- A disabled record "D" with callback 7. -/
def sample_D : tray_menu := .mk (some "D") 1 (-1) (some 7) 0 none

/-- A tray whose menu is the single disabled record D. -/
def sample_tray_D : tray :=
  { icon := "icon.ico", menu := some [sample_D, sample_end] }

/-- A posted message that is not for the tray window (a thread timer
message). -/
def sample_msg : Windows.MSG :=
  { hwnd := 0, message := 0x0113, wParam := 0, lParam := 0 }

/-- A WM_COMMAND message for the tray window of `sample_env` carrying the
identifier 1000. -/
def sample_command_msg : Windows.MSG :=
  { hwnd := 1, message := Windows.WM_COMMAND, wParam := 1000, lParam := 0 }

/-- A WM_QUIT message. -/
def sample_quit_msg : Windows.MSG :=
  { hwnd := 0, message := Windows.WM_QUIT, wParam := 0, lParam := 0 }

/-! ## Induction over menu trees and native menus -/

mutual
/-- Induction over arrays of records and records together. -/
theorem tray_menu.induct_list {P : List tray_menu → Prop} {Q : tray_menu → Prop}
    (hnil : P []) (hcons : ∀ e rest, Q e → P rest → P (e :: rest))
    (hleaf : ∀ t d c f x, Q (.mk t d c f x none))
    (hsub : ∀ t d c f x s, P s → Q (.mk t d c f x (some s))) : ∀ m, P m
  | [] => hnil
  | e :: rest =>
    hcons e rest (tray_menu.induct_node hnil hcons hleaf hsub e)
      (tray_menu.induct_list hnil hcons hleaf hsub rest)
/-- The record half of `tray_menu.induct_list`. -/
theorem tray_menu.induct_node {P : List tray_menu → Prop} {Q : tray_menu → Prop}
    (hnil : P []) (hcons : ∀ e rest, Q e → P rest → P (e :: rest))
    (hleaf : ∀ t d c f x, Q (.mk t d c f x none))
    (hsub : ∀ t d c f x s, P s → Q (.mk t d c f x (some s))) : ∀ e, Q e
  | .mk t d c f x none => hleaf t d c f x
  | .mk t d c f x (some s) => hsub t d c f x s (tray_menu.induct_list hnil hcons hleaf hsub s)
end

/-- Induction over arrays and records, both conclusions. -/
theorem tray_menu.induct {P : List tray_menu → Prop} {Q : tray_menu → Prop}
    (hnil : P []) (hcons : ∀ e rest, Q e → P rest → P (e :: rest))
    (hleaf : ∀ t d c f x, Q (.mk t d c f x none))
    (hsub : ∀ t d c f x s, P s → Q (.mk t d c f x (some s))) :
    (∀ m, P m) ∧ (∀ e, Q e) :=
  ⟨tray_menu.induct_list hnil hcons hleaf hsub, tray_menu.induct_node hnil hcons hleaf hsub⟩

namespace Windows

mutual
/-- Induction over native menus and items together. -/
theorem MENUITEM.induct_menu {P : List MENUITEM → Prop} {Q : MENUITEM → Prop}
    (hnil : P []) (hcons : ∀ it rest, Q it → P rest → P (it :: rest))
    (hleaf : ∀ t s w d x, Q (.mk t s w none d x))
    (hsub : ∀ t s w sub d x, P sub → Q (.mk t s w (some sub) d x)) : ∀ h, P h
  | [] => hnil
  | it :: rest =>
    hcons it rest (MENUITEM.induct_entry hnil hcons hleaf hsub it)
      (MENUITEM.induct_menu hnil hcons hleaf hsub rest)
/-- The item half of `MENUITEM.induct_menu`. -/
theorem MENUITEM.induct_entry {P : List MENUITEM → Prop} {Q : MENUITEM → Prop}
    (hnil : P []) (hcons : ∀ it rest, Q it → P rest → P (it :: rest))
    (hleaf : ∀ t s w d x, Q (.mk t s w none d x))
    (hsub : ∀ t s w sub d x, P sub → Q (.mk t s w (some sub) d x)) : ∀ it, Q it
  | .mk t s w none d x => hleaf t s w d x
  | .mk t s w (some sub) d x =>
    hsub t s w sub d x (MENUITEM.induct_menu hnil hcons hleaf hsub sub)
end

theorem allItems_nil : allItems [] = [] := by
  simp [allItems]

theorem allItems_cons (it : MENUITEM) (rest : List MENUITEM) :
    allItems (it :: rest) = allItems_item it ++ allItems rest := by
  simp [allItems]

theorem allItems_append (a b : List MENUITEM) :
    allItems (a ++ b) = allItems a ++ allItems b := by
  induction a with
  | nil => simp [allItems_nil]
  | cons x xs ih => simp [allItems_cons, ih]

theorem self_mem_allItems_item (it : MENUITEM) : it ∈ allItems_item it := by
  cases it with
  | mk t s w h d x =>
    cases h <;> simp [allItems_item]

theorem sub_mem_allItems_item (it : MENUITEM) (sub : HMENU) (h : it.hSubMenu = some sub)
    (y : MENUITEM) (hy : y ∈ allItems sub) : y ∈ allItems_item it := by
  cases it with
  | mk t s w h0 d x =>
    simp [MENUITEM.hSubMenu] at h
    subst h
    simp [allItems_item, hy]

/-- A search by command that meets no item with the identifier returns the
fallback. -/
theorem MENU_FindItem_none (id : Nat) :
    ∀ items : List MENUITEM, (∀ it ∈ allItems items, it.wID ≠ id) →
      ∀ i fb, MENU_FindItem items id i fb = fb := by
  refine MENUITEM.induct_menu
    (P := fun items => (∀ it ∈ allItems items, it.wID ≠ id) →
      ∀ i fb, MENU_FindItem items id i fb = fb)
    (Q := fun it => (∀ y ∈ allItems_item it, y.wID ≠ id) → MENU_FindItem_item it id = none)
    ?_ ?_ ?_ ?_
  · intro _ i fb
    simp [MENU_FindItem]
  · intro it rest hit hrest hall i fb
    have h1 : MENU_FindItem_item it id = none :=
      hit (fun y hy => hall y (by simp [allItems_cons, hy]))
    have h2 := hrest (fun y hy => hall y (by simp [allItems_cons, hy]))
    simp [MENU_FindItem, h1, h2]
  · intro t s w d x hall
    have := hall (.mk t s w none d x) (by simp [allItems_item])
    simp [MENUITEM.wID] at this
    simp [MENU_FindItem_item, this]
  · intro t s w sub d x hsub hall
    have h1 := hsub (fun y hy => hall y (by simp [allItems_item, hy])) 0 none
    have := hall (.mk t s w (some sub) d x) (by simp [allItems_item])
    simp [MENUITEM.wID] at this
    simp [MENU_FindItem_item, h1, this]

theorem itemAt_cons_succ (it : MENUITEM) (rest : List MENUITEM) (j : Nat) (q : Ptr) :
    itemAt (it :: rest) ((j + 1) :: q) = itemAt rest (j :: q) := by
  simp [itemAt]

theorem itemAt_cons_zero (it : MENUITEM) (rest : List MENUITEM) (q : Ptr) :
    itemAt (it :: rest) (0 :: q) = itemAt [it] (0 :: q) := by
  simp [itemAt]

/-- What a search by command returns is the fallback or the location of an
item with the identifier. -/
theorem MENU_FindItem_sound (id : Nat) :
    ∀ items : List MENUITEM, ∀ i fb loc, MENU_FindItem items id i fb = some loc →
      fb = some loc ∨
      ∃ j q y, loc = (i + j) :: q ∧ itemAt items (j :: q) = some y ∧ y.wID = id := by
  refine MENUITEM.induct_menu
    (P := fun items => ∀ i fb loc, MENU_FindItem items id i fb = some loc →
      fb = some loc ∨
      ∃ j q y, loc = (i + j) :: q ∧ itemAt items (j :: q) = some y ∧ y.wID = id)
    (Q := fun it => ∀ r, MENU_FindItem_item it id = some r →
      (r = none ∧ it.wID = id) ∨
      ∃ q y, r = some q ∧ itemAt [it] (0 :: q) = some y ∧ y.wID = id)
    ?_ ?_ ?_ ?_
  · intro i fb loc h
    simp [MENU_FindItem] at h
    exact Or.inl h
  · intro it rest hit hrest i fb loc h
    rw [MENU_FindItem] at h
    cases hr : MENU_FindItem_item it id with
    | none =>
      simp only [hr] at h
      rcases hrest (i + 1) fb loc h with h1 | ⟨j, q, y, h1, h2, h3⟩
      · exact Or.inl h1
      · refine Or.inr ⟨j + 1, q, y, ?_, ?_, h3⟩
        · rw [h1]; congr 1; omega
        · rw [itemAt_cons_succ]; exact h2
    | some r =>
      rcases hit r hr with ⟨h1, h2⟩ | ⟨q, y, h1, h2, h3⟩
      · subst h1
        simp only [hr] at h
        rcases hrest (i + 1) (some [i]) loc h with h1 | ⟨j, q, y, h1, h4, h3⟩
        · refine Or.inr ⟨0, [], it, ?_, ?_, h2⟩
          · simp at h1; simp [h1]
          · simp [itemAt]
        · refine Or.inr ⟨j + 1, q, y, ?_, ?_, h3⟩
          · rw [h1]; congr 1; omega
          · rw [itemAt_cons_succ]; exact h4
      · subst h1
        simp only [hr] at h
        refine Or.inr ⟨0, q, y, ?_, ?_, h3⟩
        · simp at h; simp [h]
        · rw [itemAt_cons_zero]; exact h2
  · intro t s w d x r h
    simp only [MENU_FindItem_item] at h
    split at h
    · rename_i hw
      simp at h
      subst h
      exact Or.inr ⟨[], .mk t s w none d x, rfl, by simp [itemAt], by simp [MENUITEM.wID, hw]⟩
    · simp at h
  · intro t s w sub d x hsub r h
    simp only [MENU_FindItem_item] at h
    cases hf : MENU_FindItem sub id 0 none with
    | none =>
      simp only [hf] at h
      split at h
      · rename_i hw
        simp at h
        subst h
        exact Or.inl ⟨rfl, by simp [MENUITEM.wID, hw]⟩
      · simp at h
    | some loc =>
      simp only [hf] at h
      simp at h
      subst h
      rcases hsub 0 none loc hf with h1 | ⟨j, q, y, h1, h2, h3⟩
      · simp at h1
      · refine Or.inr ⟨loc, y, rfl, ?_, h3⟩
        simp at h1
        subst h1
        simpa [itemAt, MENUITEM.hSubMenu] using h2

/-- A search by command finds an item with the identifier whenever the menu
has one, at whatever depth. -/
theorem MENU_FindItem_complete (id : Nat) :
    ∀ items : List MENUITEM, (∃ y ∈ allItems items, y.wID = id) → ∀ i fb,
      ∃ j q y, MENU_FindItem items id i fb = some ((i + j) :: q) ∧
        itemAt items (j :: q) = some y ∧ y.wID = id := by
  refine MENUITEM.induct_menu
    (P := fun items => (∃ y ∈ allItems items, y.wID = id) → ∀ i fb,
      ∃ j q y, MENU_FindItem items id i fb = some ((i + j) :: q) ∧
        itemAt items (j :: q) = some y ∧ y.wID = id)
    (Q := fun it => (∃ y ∈ allItems_item it, y.wID = id) → MENU_FindItem_item it id ≠ none)
    ?_ ?_ ?_ ?_
  · rintro ⟨y, hy, _⟩
    simp [allItems_nil] at hy
  · intro it rest hit hrest hex i fb
    have key : ∀ loc, MENU_FindItem (it :: rest) id i fb = some loc → fb ≠ some loc →
        ∃ j q y, MENU_FindItem (it :: rest) id i fb = some ((i + j) :: q) ∧
          itemAt (it :: rest) (j :: q) = some y ∧ y.wID = id := by
      intro loc h hfb
      rcases MENU_FindItem_sound id (it :: rest) i fb loc h with h1 | ⟨j, q, y, h1, h2, h3⟩
      · exact absurd h1 hfb
      · exact ⟨j, q, y, by rw [h, h1], h2, h3⟩
    by_cases hin : ∃ y ∈ allItems rest, y.wID = id
    · -- the rest has a match
      cases hr : MENU_FindItem_item it id with
      | none =>
        obtain ⟨j, q, y, h1, h2, h3⟩ := hrest hin (i + 1) fb
        refine ⟨j + 1, q, y, ?_, ?_, h3⟩
        · rw [MENU_FindItem]; simp only [hr]; rw [h1]; congr 2; omega
        · rw [itemAt_cons_succ]; exact h2
      | some r =>
        cases r with
        | none =>
          obtain ⟨j, q, y, h1, h2, h3⟩ := hrest hin (i + 1) (some [i])
          refine ⟨j + 1, q, y, ?_, ?_, h3⟩
          · rw [MENU_FindItem]; simp only [hr]; rw [h1]; congr 2; omega
          · rw [itemAt_cons_succ]; exact h2
        | some q =>
          have hs := MENU_FindItem_sound id [it] 0 none
          have hq : MENU_FindItem (it :: rest) id i fb = some (i :: q) := by
            rw [MENU_FindItem]; simp only [hr]
          have h1 : MENU_FindItem [it] id 0 none = some (0 :: q) := by
            rw [MENU_FindItem]; simp only [hr]
          rcases hs (0 :: q) h1 with h2 | ⟨j, q2, y, h2, h3, h4⟩
          · simp at h2
          · simp at h2
            obtain ⟨hj, hq2⟩ := h2
            subst hj hq2
            refine ⟨0, q, y, by simpa using hq, ?_, h4⟩
            rw [itemAt_cons_zero]; exact h3
    · -- no match in the rest: the match is in the head item
      have hnone := MENU_FindItem_none id rest (by
        intro y hy hw; exact hin ⟨y, hy, hw⟩)
      have hit2 : MENU_FindItem_item it id ≠ none := by
        apply hit
        obtain ⟨y, hy, hw⟩ := hex
        rw [allItems_cons] at hy
        rcases List.mem_append.mp hy with h | h
        · exact ⟨y, h, hw⟩
        · exact absurd ⟨y, h, hw⟩ hin
      cases hr : MENU_FindItem_item it id with
      | none => exact absurd hr hit2
      | some r =>
        have hs := MENU_FindItem_sound id [it] 0 none
        cases r with
        | none =>
          have h1 : MENU_FindItem [it] id 0 none = some [0] := by
            rw [MENU_FindItem]; simp only [hr]; simp [MENU_FindItem]
          rcases hs [0] h1 with h2 | ⟨j, q2, y, h2, h3, h4⟩
          · simp at h2
          · simp at h2
            obtain ⟨hj, hq2⟩ := h2
            subst hj hq2
            refine ⟨0, [], y, ?_, ?_, h4⟩
            · rw [MENU_FindItem]; simp only [hr]; rw [hnone]; simp
            · rw [itemAt_cons_zero]; exact h3
        | some q =>
          have h1 : MENU_FindItem [it] id 0 none = some (0 :: q) := by
            rw [MENU_FindItem]; simp only [hr]
          rcases hs (0 :: q) h1 with h2 | ⟨j, q2, y, h2, h3, h4⟩
          · simp at h2
          · simp at h2
            obtain ⟨hj, hq2⟩ := h2
            subst hj hq2
            refine ⟨0, q, y, ?_, ?_, h4⟩
            · rw [MENU_FindItem]; simp only [hr]; simp
            · rw [itemAt_cons_zero]; exact h3
  · intro t s w d x hex
    obtain ⟨y, hy, hw⟩ := hex
    simp [allItems_item] at hy
    subst hy
    simp [MENUITEM.wID] at hw
    simp [MENU_FindItem_item, hw]
  · intro t s w sub d x hsub hex
    by_cases hin : ∃ y ∈ allItems sub, y.wID = id
    · obtain ⟨j, q, y, h1, _, _⟩ := hsub hin 0 none
      simp [MENU_FindItem_item, h1]
    · obtain ⟨y, hy, hw⟩ := hex
      simp [allItems_item] at hy
      rcases hy with h | h
      · exact absurd ⟨y, h, hw⟩ hin
      · subst h
        simp [MENUITEM.wID] at hw
        have hnone := MENU_FindItem_none id sub (by
          intro y hy hw; exact hin ⟨y, hy, hw⟩) 0 none
        simp [MENU_FindItem_item, hnone, hw]

/-- An item at a location of a menu is one of its items. -/
theorem itemAt_mem : ∀ (loc : Ptr) (h : HMENU) (it : MENUITEM),
    itemAt h loc = some it → it ∈ allItems h
  | [], h, it, hl => by simp [itemAt] at hl
  | i :: q, h, it, hl => by
    rw [itemAt] at hl
    cases hi : h[i]? with
    | none => simp [hi] at hl
    | some x =>
      simp only [hi] at hl
      have hx : x ∈ h := List.getElem?_mem hi
      have hsplit : ∀ y ∈ allItems_item x, y ∈ allItems h := by
        intro y hy
        obtain ⟨l1, l2, rfl⟩ := List.append_of_mem hx
        simp [allItems_append, allItems_cons, hy]
      cases q with
      | nil =>
        simp at hl
        subst hl
        exact hsplit _ (self_mem_allItems_item _)
      | cons j q2 =>
        simp only at hl
        cases hs : x.hSubMenu with
        | none => simp [hs] at hl
        | some sub =>
          simp only [hs] at hl
          have := itemAt_mem (j :: q2) sub it hl
          exact hsplit _ (sub_mem_allItems_item x sub hs it this)

/-! ## The binder builds `menuOf` -/

theorem ofInfo_item_some (a : Ptr) (t : String) (d c : Int) (h : HMENU) (k : Nat) :
    MENUITEM.ofInfo (_tray_menu_item a t d c (some h) k) =
      .mk 0 (_tray_menu_item a t d c none 0).fState k (some h) (some a) (some t) := by
  unfold _tray_menu_item
  by_cases hd : d ≠ 0 <;> by_cases hc : (c ≠ 0 ∧ c ≠ -1)
  · simp only [if_pos hd, if_pos hc]
    simp [MENUITEM.ofInfo, MENUITEMINFO.zero, MIIM_ID, MIIM_TYPE, MIIM_STATE, MIIM_DATA, MIIM_SUBMENU]
  · simp only [if_pos hd, if_neg hc]
    simp [MENUITEM.ofInfo, MENUITEMINFO.zero, MIIM_ID, MIIM_TYPE, MIIM_STATE, MIIM_DATA, MIIM_SUBMENU]
  · simp only [if_neg hd, if_pos hc]
    simp [MENUITEM.ofInfo, MENUITEMINFO.zero, MIIM_ID, MIIM_TYPE, MIIM_STATE, MIIM_DATA, MIIM_SUBMENU]
  · simp only [if_neg hd, if_neg hc]
    simp [MENUITEM.ofInfo, MENUITEMINFO.zero, MIIM_ID, MIIM_TYPE, MIIM_STATE, MIIM_DATA, MIIM_SUBMENU]

theorem ofInfo_item_none (a : Ptr) (t : String) (d c : Int) (k : Nat) :
    MENUITEM.ofInfo (_tray_menu_item a t d c none k) =
      .mk 0 (_tray_menu_item a t d c none 0).fState k none (some a) (some t) := by
  unfold _tray_menu_item
  by_cases hd : d ≠ 0 <;> by_cases hc : (c ≠ 0 ∧ c ≠ -1)
  · simp only [if_pos hd, if_pos hc]
    simp [MENUITEM.ofInfo, MENUITEMINFO.zero, MIIM_ID, MIIM_TYPE, MIIM_STATE, MIIM_DATA, MIIM_SUBMENU]
  · simp only [if_pos hd, if_neg hc]
    simp [MENUITEM.ofInfo, MENUITEMINFO.zero, MIIM_ID, MIIM_TYPE, MIIM_STATE, MIIM_DATA, MIIM_SUBMENU]
  · simp only [if_neg hd, if_pos hc]
    simp [MENUITEM.ofInfo, MENUITEMINFO.zero, MIIM_ID, MIIM_TYPE, MIIM_STATE, MIIM_DATA, MIIM_SUBMENU]
  · simp only [if_neg hd, if_neg hc]
    simp [MENUITEM.ofInfo, MENUITEMINFO.zero, MIIM_ID, MIIM_TYPE, MIIM_STATE, MIIM_DATA, MIIM_SUBMENU]

theorem allItems_item_leaf (it : MENUITEM) (h : it.hSubMenu = none) : allItems_item it = [it] := by
  cases it with
  | mk t s w h0 d x =>
    simp [MENUITEM.hSubMenu] at h
    subst h
    simp [allItems_item]

theorem allItems_item_sub (it : MENUITEM) (sub : HMENU) (h : it.hSubMenu = some sub) :
    allItems_item it = allItems sub ++ [it] := by
  cases it with
  | mk t s w h0 d x =>
    simp [MENUITEM.hSubMenu] at h
    subst h
    simp [allItems_item]

theorem separatorItem_eq : separatorItem = .mk MF_SEPARATOR 0 1 none none none := by
  simp [separatorItem, InsertMenu_item, MF_SEPARATOR, TRUE]

end Windows

theorem postOrder_nil (p : Ptr) (i : Nat) : postOrder p i [] = [] := by
  simp [postOrder]

theorem postOrder_cons (p : Ptr) (i : Nat) (e : tray_menu) (rest : List tray_menu) :
    postOrder p i (e :: rest) =
      match e.text with
      | none => []
      | some t => postOrderNode (p ++ [i]) e t ++ postOrder p (i + 1) rest := by
  simp [postOrder]

theorem count_cons (e : tray_menu) (rest : List tray_menu) :
    count (e :: rest) =
      match e.text with
      | none => 0
      | some t => countNode e t + count rest := by
  simp [count]

theorem countNode_pos (e : tray_menu) (t : String) : 1 ≤ countNode e t := by
  cases e with
  | mk x d c f y s =>
    cases s with
    | none => simp [countNode]
    | some s =>
      simp only [countNode]
      split <;> omega

theorem postOrder_length_both :
    (∀ (m : List tray_menu) (p : Ptr) (i : Nat), (postOrder p i m).length = count m) ∧
    (∀ (e : tray_menu) (a : Ptr) (t : String), (postOrderNode a e t).length = countNode e t) := by
  refine tray_menu.induct
    (P := fun m => ∀ (p : Ptr) (i : Nat), (postOrder p i m).length = count m)
    (Q := fun e => ∀ (a : Ptr) (t : String), (postOrderNode a e t).length = countNode e t)
    ?_ ?_ ?_ ?_
  · intro p i
    simp [postOrder, count]
  · intro e rest he hrest p i
    rw [postOrder_cons, count_cons]
    cases e.text with
    | none => simp
    | some t => simp [he, hrest]
  · intro t d c f x a t2
    simp [postOrderNode, countNode]
  · intro t d c f x s hs a t2
    simp only [postOrderNode, countNode]
    split <;> simp [hs]

/-- The post-order walk lists every record of the menu tree once. -/
theorem postOrder_length (m : List tray_menu) (p : Ptr) (i : Nat) :
    (postOrder p i m).length = count m :=
  postOrder_length_both.1 m p i

theorem postOrderNode_length (e : tray_menu) (a : Ptr) (t : String) :
    (postOrderNode a e t).length = countNode e t :=
  postOrder_length_both.2 e a t

/-! ## Addresses of the records of a tree -/

theorem deref_cons_succ (e : tray_menu) (rest : List tray_menu) (j : Nat) (q : Ptr) :
    deref (e :: rest) ((j + 1) :: q) = deref rest (j :: q) := by
  simp [deref]

theorem deref_cons_zero (e : tray_menu) (rest : List tray_menu) :
    deref (e :: rest) [0] = some e := by
  simp [deref]

theorem deref_cons_zero_cons (e : tray_menu) (rest : List tray_menu) (s : List tray_menu)
    (h : e.submenu = some s) (j : Nat) (q : Ptr) :
    deref (e :: rest) (0 :: j :: q) = deref s (j :: q) := by
  simp [deref, h]

theorem postOrder_addr_both :
    (∀ (m : List tray_menu) (p : Ptr) (i : Nat) (x : Ptr × tray_menu), x ∈ postOrder p i m →
      ∃ j q, x.1 = p ++ (i + j) :: q ∧ deref m (j :: q) = some x.2) ∧
    (∀ (e : tray_menu) (a : Ptr) (t : String) (x : Ptr × tray_menu), x ∈ postOrderNode a e t →
      x = (a, e) ∨
      ∃ s j q, e.submenu = some s ∧ x.1 = a ++ j :: q ∧ deref s (j :: q) = some x.2) := by
  refine tray_menu.induct
    (P := fun m => ∀ (p : Ptr) (i : Nat) (x : Ptr × tray_menu), x ∈ postOrder p i m →
      ∃ j q, x.1 = p ++ (i + j) :: q ∧ deref m (j :: q) = some x.2)
    (Q := fun e => ∀ (a : Ptr) (t : String) (x : Ptr × tray_menu), x ∈ postOrderNode a e t →
      x = (a, e) ∨
      ∃ s j q, e.submenu = some s ∧ x.1 = a ++ j :: q ∧ deref s (j :: q) = some x.2)
    ?_ ?_ ?_ ?_
  · intro p i x hx
    simp [postOrder] at hx
  · intro e rest he hrest p i x hx
    rw [postOrder_cons] at hx
    cases ht : e.text with
    | none => simp [ht] at hx
    | some t =>
      simp only [ht] at hx
      rcases List.mem_append.mp hx with h | h
      · rcases he (p ++ [i]) t x h with h1 | ⟨s, j, q, h1, h2, h3⟩
        · subst h1
          exact ⟨0, [], by simp, deref_cons_zero e rest⟩
        · refine ⟨0, j :: q, ?_, ?_⟩
          · rw [h2]; simp
          · rw [deref_cons_zero_cons e rest s h1]; exact h3
      · obtain ⟨j, q, h1, h2⟩ := hrest p (i + 1) x h
        refine ⟨j + 1, q, ?_, ?_⟩
        · rw [h1]; congr 2; omega
        · rw [deref_cons_succ]; exact h2
  · intro t d c f y a t2 x hx
    simp [postOrderNode] at hx
    exact Or.inl hx
  · intro t d c f y s hs a t2 x hx
    simp only [postOrderNode] at hx
    split at hx
    · simp at hx
      exact Or.inl hx
    · rcases List.mem_append.mp hx with h | h
      · obtain ⟨j, q, h1, h2⟩ := hs a 0 x h
        refine Or.inr ⟨s, j, q, rfl, ?_, h2⟩
        simpa using h1
      · simp at h
        exact Or.inl h

/-- The address listed with a record leads to that record. -/
theorem postOrder_deref (m : List tray_menu) (x : Ptr × tray_menu)
    (h : x ∈ postOrder [] 0 m) : deref m x.1 = some x.2 := by
  obtain ⟨j, q, h1, h2⟩ := postOrder_addr_both.1 m [] 0 x h
  rw [h1]
  simpa using h2

theorem postOrder_addr (m : List tray_menu) (p : Ptr) (i : Nat) (x : Ptr × tray_menu)
    (h : x ∈ postOrder p i m) : ∃ j q, x.1 = p ++ (i + j) :: q := by
  obtain ⟨j, q, h1, _⟩ := postOrder_addr_both.1 m p i x h
  exact ⟨j, q, h1⟩

theorem postOrderNode_addr (e : tray_menu) (a : Ptr) (t : String) (x : Ptr × tray_menu)
    (h : x ∈ postOrderNode a e t) : ∃ q, x.1 = a ++ q := by
  rcases postOrder_addr_both.2 e a t x h with h1 | ⟨s, j, q, _, h2, _⟩
  · exact ⟨[], by simp [h1]⟩
  · exact ⟨j :: q, h2⟩

/-- In the post-order walk a record comes after all records of its submenu, and
no two records share an address: the address of a later record never extends
the address of an earlier one. -/
theorem postOrder_pairwise_both :
    (∀ (m : List tray_menu) (p : Ptr) (i : Nat),
      (postOrder p i m).Pairwise (fun x y => ∀ q, y.1 ≠ x.1 ++ q)) ∧
    (∀ (e : tray_menu) (a : Ptr) (t : String),
      (postOrderNode a e t).Pairwise (fun x y => ∀ q, y.1 ≠ x.1 ++ q)) := by
  refine tray_menu.induct
    (P := fun m => ∀ (p : Ptr) (i : Nat),
      (postOrder p i m).Pairwise (fun x y => ∀ q, y.1 ≠ x.1 ++ q))
    (Q := fun e => ∀ (a : Ptr) (t : String),
      (postOrderNode a e t).Pairwise (fun x y => ∀ q, y.1 ≠ x.1 ++ q))
    ?_ ?_ ?_ ?_
  · intro p i
    simp [postOrder]
  · intro e rest he hrest p i
    rw [postOrder_cons]
    cases ht : e.text with
    | none => simp
    | some t =>
      simp only []
      rw [List.pairwise_append]
      refine ⟨he _ _, hrest _ _, ?_⟩
      intro x hx y hy q hq
      obtain ⟨qx, hqx⟩ := postOrderNode_addr e (p ++ [i]) t x hx
      obtain ⟨j, qy, hqy⟩ := postOrder_addr rest p (i + 1) y hy
      rw [hqx, hqy] at hq
      simp [List.append_assoc] at hq
      omega
  · intro t d c f y a t2
    simp [postOrderNode]
  · intro t d c f y s hs a t2
    simp only [postOrderNode]
    split
    · simp
    · rw [List.pairwise_append]
      refine ⟨hs _ _, by simp, ?_⟩
      intro x hx z hz q hq
      simp at hz
      subst hz
      obtain ⟨j, qx, hqx⟩ := postOrder_addr s a 0 x hx
      rw [hqx] at hq
      have := congrArg List.length hq
      simp at this

theorem postOrder_pairwise (m : List tray_menu) (p : Ptr) (i : Nat) :
    (postOrder p i m).Pairwise (fun x y => ∀ q, y.1 ≠ x.1 ++ q) :=
  postOrder_pairwise_both.1 m p i

/-- Two positions of the post-order walk with the same address are the same
position. -/
theorem postOrder_index_unique (m : List tray_menu) (p : Ptr) (i : Nat) (k1 k2 : Nat)
    (x1 x2 : Ptr × tray_menu) (h1 : (postOrder p i m)[k1]? = some x1)
    (h2 : (postOrder p i m)[k2]? = some x2) (h : x1.1 = x2.1) : k1 = k2 := by
  have hp := List.pairwise_iff_getElem.mp (postOrder_pairwise m p i)
  obtain ⟨hl1, e1⟩ := List.getElem?_eq_some.mp h1
  obtain ⟨hl2, e2⟩ := List.getElem?_eq_some.mp h2
  rcases Nat.lt_trichotomy k1 k2 with hlt | heq | hgt
  · have := hp k1 k2 hl1 hl2 hlt []
    rw [e1, e2] at this
    simp [h] at this
  · exact heq
  · have := hp k2 k1 hl2 hl1 hgt []
    rw [e1, e2] at this
    simp [h] at this

/-- A record comes after every record below it in the post-order walk. -/
theorem postOrder_descendant_before (m : List tray_menu) (p : Ptr) (i : Nat) (k1 k2 : Nat)
    (x1 x2 : Ptr × tray_menu) (h1 : (postOrder p i m)[k1]? = some x1)
    (h2 : (postOrder p i m)[k2]? = some x2) (j : Nat) (q : Ptr)
    (h : x2.1 = x1.1 ++ j :: q) : k2 < k1 := by
  have hp := List.pairwise_iff_getElem.mp (postOrder_pairwise m p i)
  obtain ⟨hl1, e1⟩ := List.getElem?_eq_some.mp h1
  obtain ⟨hl2, e2⟩ := List.getElem?_eq_some.mp h2
  rcases Nat.lt_trichotomy k1 k2 with hlt | heq | hgt
  · have := hp k1 k2 hl1 hl2 hlt (j :: q)
    rw [e1, e2] at this
    exact absurd h this
  · subst heq
    rw [h1] at h2
    simp at h2
    subst h2
    have := congrArg List.length h
    simp at this
  · exact hgt

theorem nodes_cons (p : Ptr) (i : Nat) (e : tray_menu) (rest : List tray_menu) :
    nodes p i (e :: rest) =
      match e.text with
      | none => []
      | some t => nodesNode (p ++ [i]) e t ++ nodes p (i + 1) rest := by
  simp [nodes]

/-- The pre-order and the post-order walk list the same records. -/
theorem mem_nodes_iff_both :
    (∀ (m : List tray_menu) (p : Ptr) (i : Nat) (x : Ptr × tray_menu),
      x ∈ nodes p i m ↔ x ∈ postOrder p i m) ∧
    (∀ (e : tray_menu) (a : Ptr) (t : String) (x : Ptr × tray_menu),
      x ∈ nodesNode a e t ↔ x ∈ postOrderNode a e t) := by
  refine tray_menu.induct
    (P := fun m => ∀ (p : Ptr) (i : Nat) (x : Ptr × tray_menu),
      x ∈ nodes p i m ↔ x ∈ postOrder p i m)
    (Q := fun e => ∀ (a : Ptr) (t : String) (x : Ptr × tray_menu),
      x ∈ nodesNode a e t ↔ x ∈ postOrderNode a e t)
    ?_ ?_ ?_ ?_
  · intro p i x
    simp [nodes, postOrder]
  · intro e rest he hrest p i x
    rw [nodes_cons, postOrder_cons]
    cases e.text with
    | none => simp
    | some t => simp [he, hrest]
  · intro t d c f y a t2 x
    simp [nodesNode, postOrderNode]
  · intro t d c f y s hs a t2 x
    simp only [nodesNode, postOrderNode]
    split
    · simp
    · simp [hs, or_comm]

theorem mem_nodes_iff (m : List tray_menu) (p : Ptr) (i : Nat) (x : Ptr × tray_menu) :
    x ∈ nodes p i m ↔ x ∈ postOrder p i m :=
  mem_nodes_iff_both.1 m p i x

/-- The address of a record of the tree of a tray leads to it. -/
theorem tray.deref_of_mem_nodes (t : tray) (a : Ptr) (n : tray_menu)
    (h : (a, n) ∈ t.nodes) : t.deref a = some n := by
  unfold tray.nodes at h
  rw [mem_nodes_iff] at h
  unfold tray.deref
  cases hm : t.menu with
  | none => simp [hm, Tray.postOrder] at h
  | some m =>
    simp only [hm, Option.getD_some] at h
    exact postOrder_deref m (a, n) h

namespace Windows

@[simp] theorem setSubMenu_mk (t s w : Nat) (h : Option HMENU) (d : Option Ptr)
    (x : Option String) (h2 : Option HMENU) :
    (MENUITEM.mk t s w h d x).setSubMenu h2 = .mk t s w h2 d x := rfl

theorem menuOf_cons (p : Ptr) (i : Nat) (e : tray_menu) (rest : List tray_menu) (id : Nat) :
    menuOf p i (e :: rest) id =
      match e.text with
      | none => []
      | some t => itemOf (p ++ [i]) e t id :: menuOf p (i + 1) rest (id + countNode e t) := by
  simp [menuOf]

theorem allItems_menuOf_both :
    (∀ (m : List tray_menu) (p : Ptr) (i id : Nat),
      (allItems (menuOf p i m id)).map (fun it => it.setSubMenu none) =
        (List.enumFrom id (postOrder p i m)).map expectedItem) ∧
    (∀ (e : tray_menu) (a : Ptr) (t : String) (id : Nat), e.text = some t →
      (allItems_item (itemOf a e t id)).map (fun it => it.setSubMenu none) =
        (List.enumFrom id (postOrderNode a e t)).map expectedItem) := by
  refine tray_menu.induct
    (P := fun m => ∀ (p : Ptr) (i id : Nat),
      (allItems (menuOf p i m id)).map (fun it => it.setSubMenu none) =
        (List.enumFrom id (postOrder p i m)).map expectedItem)
    (Q := fun e => ∀ (a : Ptr) (t : String) (id : Nat), e.text = some t →
      (allItems_item (itemOf a e t id)).map (fun it => it.setSubMenu none) =
        (List.enumFrom id (postOrderNode a e t)).map expectedItem)
    ?_ ?_ ?_ ?_
  · intro p i id
    simp [menuOf, postOrder, allItems_nil]
  · intro e rest he hrest p i id
    rw [menuOf_cons, postOrder_cons]
    cases ht : e.text with
    | none => simp [allItems_nil]
    | some t =>
      simp only []
      rw [allItems_cons, List.map_append, he _ _ _ ht, hrest, List.enumFrom_append,
        List.map_append, postOrderNode_length]
  · intro t d c f x a t2 id ht
    simp [tray_menu.text] at ht
    subst ht
    by_cases hsep : isSeparator t2 = true
    · simp [itemOf, postOrderNode, hsep, expectedItem, tray_menu.isSep, tray_menu.text,
        separatorItem_eq, allItems_item]
    · simp [itemOf, postOrderNode, hsep, expectedItem, tray_menu.isSep, tray_menu.text,
        ofInfo_item_none, allItems_item, tray_menu.disabled, tray_menu.checked]
  · intro t d c f x s hs a t2 id ht
    simp [tray_menu.text] at ht
    subst ht
    by_cases hsep : isSeparator t2 = true
    · simp [itemOf, postOrderNode, hsep, expectedItem, tray_menu.isSep, tray_menu.text,
        separatorItem_eq, allItems_item]
    · simp [itemOf, postOrderNode, hsep, expectedItem, tray_menu.isSep, tray_menu.text,
        ofInfo_item_none, ofInfo_item_some, allItems_item,
        tray_menu.disabled, tray_menu.checked, hs, List.enumFrom_append, postOrder_length]

/-- The items of the menu built, submenus left out, are the items expected for
the records of the tree in post-order, numbered from the starting value of
the counter. -/
theorem allItems_menuOf (m : List tray_menu) (p : Ptr) (i id : Nat) :
    (allItems (menuOf p i m id)).map (fun it => it.setSubMenu none) =
      (List.enumFrom id (postOrder p i m)).map expectedItem :=
  allItems_menuOf_both.1 m p i id

theorem allItems_itemOf (e : tray_menu) (a : Ptr) (t : String) (id : Nat)
    (h : e.text = some t) :
    (allItems_item (itemOf a e t id)).map (fun it => it.setSubMenu none) =
      (List.enumFrom id (postOrderNode a e t)).map expectedItem :=
  allItems_menuOf_both.2 e a t id h

@[simp] theorem wID_setSubMenu (it : MENUITEM) (h : Option HMENU) :
    (it.setSubMenu h).wID = it.wID := by
  cases it; rfl

@[simp] theorem dwItemData_setSubMenu (it : MENUITEM) (h : Option HMENU) :
    (it.setSubMenu h).dwItemData = it.dwItemData := by
  cases it; rfl

@[simp] theorem fType_setSubMenu (it : MENUITEM) (h : Option HMENU) :
    (it.setSubMenu h).fType = it.fType := by
  cases it; rfl

@[simp] theorem fState_setSubMenu (it : MENUITEM) (h : Option HMENU) :
    (it.setSubMenu h).fState = it.fState := by
  cases it; rfl

theorem expectedItem_wID (x : Nat × Ptr × tray_menu) :
    (expectedItem x).wID = if x.2.2.isSep then 1 else x.1 := by
  unfold expectedItem
  split
  · simp [separatorItem_eq, MENUITEM.wID]
  · simp [ofInfo_item_none, MENUITEM.wID]

theorem expectedItem_dwItemData (x : Nat × Ptr × tray_menu) :
    (expectedItem x).dwItemData = if x.2.2.isSep then none else some x.2.1 := by
  unfold expectedItem
  split
  · simp [separatorItem_eq, MENUITEM.dwItemData]
  · simp [ofInfo_item_none, MENUITEM.dwItemData]

/-- Every item of the menu built is the item expected for a record of the
tree at its post-order number. -/
theorem mem_allItems_menuOf (m : List tray_menu) (p : Ptr) (i id : Nat) (it : MENUITEM)
    (h : it ∈ allItems (menuOf p i m id)) :
    ∃ x ∈ List.enumFrom id (postOrder p i m), it.setSubMenu none = expectedItem x := by
  have h1 : it.setSubMenu none ∈
      (allItems (menuOf p i m id)).map (fun it => it.setSubMenu none) :=
    List.mem_map.mpr ⟨it, h, rfl⟩
  rw [allItems_menuOf] at h1
  obtain ⟨x, hx, hx2⟩ := List.mem_map.mp h1
  exact ⟨x, hx, hx2.symm⟩

/-- Every record of the tree has its expected item in the menu built. -/
theorem exists_allItems_menuOf (m : List tray_menu) (p : Ptr) (i id : Nat)
    (x : Nat × Ptr × tray_menu) (h : x ∈ List.enumFrom id (postOrder p i m)) :
    ∃ it ∈ allItems (menuOf p i m id), it.setSubMenu none = expectedItem x := by
  have h1 : expectedItem x ∈ (List.enumFrom id (postOrder p i m)).map expectedItem :=
    List.mem_map.mpr ⟨x, h, rfl⟩
  rw [← allItems_menuOf] at h1
  obtain ⟨it, hit, hit2⟩ := List.mem_map.mp h1
  exact ⟨it, hit, hit2⟩

/-- The identifiers in the menu built are 1 (separators) or lie between the
starting value of the counter and its final value. -/
theorem wID_menuOf (m : List tray_menu) (p : Ptr) (i id : Nat) (it : MENUITEM)
    (h : it ∈ allItems (menuOf p i m id)) :
    it.wID = 1 ∨ (id ≤ it.wID ∧ it.wID < id + count m) := by
  obtain ⟨⟨k, a, e⟩, hx, hx2⟩ := mem_allItems_menuOf m p i id it h
  have hw : it.wID = (expectedItem (k, a, e)).wID := by
    rw [← hx2]; simp
  rw [expectedItem_wID] at hw
  have hk : id ≤ k ∧ k < id + count m := by
    have := List.mem_enumFrom hx
    rw [← postOrder_length m p i]
    exact ⟨this.1, this.2.1⟩
  by_cases hs : e.isSep = true
  · simp [hs] at hw
    exact Or.inl hw
  · simp [hs] at hw
    exact Or.inr ⟨by omega, by omega⟩

theorem InsertMenuItem_append (acc : HMENU) (pos : Nat) (lpmi : MENUITEMINFO)
    (h : acc.length ≤ pos) :
    InsertMenuItem acc pos TRUE lpmi = acc ++ [MENUITEM.ofInfo lpmi] := by
  unfold InsertMenuItem MENU_InsertItem
  have h1 : (if TRUE ≠ 0 then MF_BYPOSITION else 0) &&& MF_BYPOSITION ≠ 0 := by decide
  rw [if_pos h1]
  by_cases h2 : pos > acc.length
  · rw [if_pos h2]
  · rw [if_neg h2]
    have h3 : pos = acc.length := by omega
    subst h3
    simp

theorem InsertMenu_separator_append (acc : HMENU) (id : Nat)
    (h : ∀ it ∈ allItems acc, it.wID ≠ id) :
    InsertMenu acc id MF_SEPARATOR TRUE "" = acc ++ [separatorItem] := by
  unfold InsertMenu MENU_InsertItem
  have h1 : ¬ (MF_SEPARATOR &&& MF_BYPOSITION ≠ 0) := by decide
  rw [if_neg h1, MENU_FindItem_none id acc h 0 none]
  rfl

theorem _tray_menu_loop_cons (p : Ptr) (i : Nat) (e : tray_menu) (rest : List tray_menu)
    (hmenu : HMENU) (id : Nat) :
    _tray_menu_loop p i (e :: rest) hmenu id =
      match e.text with
      | none => (hmenu, id)
      | some t =>
        _tray_menu_loop p (i + 1) rest (_tray_menu_body (p ++ [i]) e t hmenu id).1
          (((_tray_menu_body (p ++ [i]) e t hmenu id).2 + 1) % UINT_SIZE) := by
  simp [_tray_menu_loop]

theorem wID_itemOf (e : tray_menu) (a : Ptr) (t : String) (id : Nat) (h : e.text = some t)
    (it : MENUITEM) (hit : it ∈ allItems_item (itemOf a e t id)) :
    it.wID = 1 ∨ (id ≤ it.wID ∧ it.wID < id + countNode e t) := by
  have h1 : it.setSubMenu none ∈
      (allItems_item (itemOf a e t id)).map (fun it => it.setSubMenu none) :=
    List.mem_map.mpr ⟨it, hit, rfl⟩
  rw [allItems_itemOf e a t id h] at h1
  obtain ⟨⟨k, b, n⟩, hx, hx2⟩ := List.mem_map.mp h1
  have hw : it.wID = (expectedItem (k, b, n)).wID := by
    rw [hx2]; simp
  rw [expectedItem_wID] at hw
  have hk : id ≤ k ∧ k < id + countNode e t := by
    have := List.mem_enumFrom hx
    rw [← postOrderNode_length e a t]
    exact ⟨this.1, this.2.1⟩
  by_cases hs : n.isSep = true
  · simp [hs] at hw
    exact Or.inl hw
  · simp [hs] at hw
    exact Or.inr ⟨by omega, by omega⟩

theorem _tray_menu_loop_eq_both :
    (∀ (m : List tray_menu) (p : Ptr) (i : Nat) (acc : HMENU) (id : Nat),
      ID_TRAY_FIRST ≤ id → id + count m < UINT_SIZE →
      (∀ it ∈ allItems acc, it.wID < id) → acc.length ≤ id →
      _tray_menu_loop p i m acc id = (acc ++ menuOf p i m id, id + count m)) ∧
    (∀ (e : tray_menu) (a : Ptr) (t : String) (acc : HMENU) (id : Nat),
      ID_TRAY_FIRST ≤ id → id + countNode e t < UINT_SIZE →
      (∀ it ∈ allItems acc, it.wID < id) → acc.length ≤ id →
      _tray_menu_body a e t acc id = (acc ++ [itemOf a e t id], id + countNode e t - 1)) := by
  refine tray_menu.induct
    (P := fun m => ∀ (p : Ptr) (i : Nat) (acc : HMENU) (id : Nat),
      ID_TRAY_FIRST ≤ id → id + count m < UINT_SIZE →
      (∀ it ∈ allItems acc, it.wID < id) → acc.length ≤ id →
      _tray_menu_loop p i m acc id = (acc ++ menuOf p i m id, id + count m))
    (Q := fun e => ∀ (a : Ptr) (t : String) (acc : HMENU) (id : Nat),
      ID_TRAY_FIRST ≤ id → id + countNode e t < UINT_SIZE →
      (∀ it ∈ allItems acc, it.wID < id) → acc.length ≤ id →
      _tray_menu_body a e t acc id = (acc ++ [itemOf a e t id], id + countNode e t - 1))
    ?_ ?_ ?_ ?_
  · intro p i acc id _ _ _ _
    simp [_tray_menu_loop, menuOf, count]
  · intro e rest he hrest p i acc id hid hsize hacc hlen
    rw [_tray_menu_loop_cons, menuOf_cons, count_cons]
    rw [count_cons] at hsize
    cases ht : e.text with
    | none => simp
    | some t =>
      simp only [ht] at hsize
      simp only []
      have hpos := countNode_pos e t
      rw [he (p ++ [i]) t acc id hid (by omega) hacc hlen]
      simp only []
      have hmod : (id + countNode e t - 1 + 1) % UINT_SIZE = id + countNode e t := by
        rw [Nat.mod_eq_of_lt] <;> omega
      rw [hmod, hrest p (i + 1) _ _ (by omega) (by omega) ?_ ?_]
      · simp [Nat.add_assoc]
      · intro it hit
        rw [allItems_append, allItems_cons, allItems_nil, List.append_nil] at hit
        rcases List.mem_append.mp hit with h | h
        · have := hacc it h; omega
        · rcases wID_itemOf e (p ++ [i]) t id ht it h with h1 | h1
          · unfold ID_TRAY_FIRST at hid; omega
          · omega
      · simp; omega
  · intro tx d c f x a t acc id hid hsize hacc hlen
    have hne : ∀ it ∈ allItems acc, it.wID ≠ id := fun it hit => by
      have := hacc it hit; omega
    by_cases hsep : isSeparator t = true
    · simp [_tray_menu_body, itemOf, countNode, hsep, InsertMenu_separator_append acc id hne]
    · simp [_tray_menu_body, itemOf, countNode, hsep, InsertMenuItem_append acc id _ hlen]
  · intro tx d c f x s hs a t acc id hid hsize hacc hlen
    have hne : ∀ it ∈ allItems acc, it.wID ≠ id := fun it hit => by
      have := hacc it hit; omega
    by_cases hsep : isSeparator t = true
    · simp [_tray_menu_body, itemOf, countNode, hsep, InsertMenu_separator_append acc id hne]
    · simp only [countNode, hsep] at hsize
      have h1 := hs a 0 CreatePopupMenu id hid (by simp at hsize; omega)
        (by simp [CreatePopupMenu, allItems_nil]) (by simp [CreatePopupMenu])
      simp only [_tray_menu_body, itemOf, countNode, hsep, h1]
      simp [CreatePopupMenu, InsertMenuItem_append acc (id + count s) _ (by omega)]

/-- When the counter starts at or above ID_TRAY_FIRST and does not wrap, the
loop of `_tray_menu` appends `menuOf`, one item per record in order, to the
menu under construction, and advances the counter by the number of records
walked. -/
theorem _tray_menu_loop_eq (m : List tray_menu) (p : Ptr) (i : Nat) (acc : HMENU) (id : Nat)
    (hid : ID_TRAY_FIRST ≤ id) (hsize : id + count m < UINT_SIZE)
    (hacc : ∀ it ∈ allItems acc, it.wID < id) (hlen : acc.length ≤ id) :
    _tray_menu_loop p i m acc id = (acc ++ menuOf p i m id, id + count m) :=
  _tray_menu_loop_eq_both.1 m p i acc id hid hsize hacc hlen

/-- The menu `_tray_menu` builds for a tray from ID_TRAY_FIRST. -/
theorem _tray_menu_eq (t : tray) (hsize : ID_TRAY_FIRST + t.count < UINT_SIZE) :
    _tray_menu [] t.menu ID_TRAY_FIRST =
      (menuOf [] 0 (t.menu.getD []) ID_TRAY_FIRST, ID_TRAY_FIRST + t.count) := by
  unfold _tray_menu tray.count
  cases hm : t.menu with
  | none => simp [CreatePopupMenu, menuOf, count]
  | some l =>
    simp only [Option.getD_some]
    rw [_tray_menu_loop_eq l [] 0 CreatePopupMenu ID_TRAY_FIRST (Nat.le_refl _)
      (by simpa [tray.count, hm] using hsize)
      (by simp [CreatePopupMenu, allItems_nil]) (by simp [CreatePopupMenu])]
    simp [CreatePopupMenu]

/-! ## Handles and dispatch -/

theorem tray_mem_nodes_iff (t : tray) (x : Ptr × tray_menu) :
    x ∈ t.nodes ↔ x ∈ t.postOrder := by
  unfold tray.nodes tray.postOrder
  exact mem_nodes_iff _ _ _ x

theorem tray_postOrder_length (t : tray) : t.postOrder.length = t.count := by
  unfold tray.postOrder tray.count
  exact Tray.postOrder_length _ _ _

theorem tray_deref_postOrder (t : tray) (x : Ptr × tray_menu) (h : x ∈ t.postOrder) :
    t.deref x.1 = some x.2 :=
  t.deref_of_mem_nodes x.1 x.2 ((tray_mem_nodes_iff t x).mpr h)

/-- The menu built for a tray, as `menuOf`. -/
theorem menu_eq (t : tray) (hsize : ID_TRAY_FIRST + t.count < UINT_SIZE) :
    (_tray_menu [] t.menu ID_TRAY_FIRST).1 = menuOf [] 0 (t.menu.getD []) ID_TRAY_FIRST := by
  rw [_tray_menu_eq t hsize]

/-- A record that is not a separator has an item carrying its address and its
post-order number as identifier. -/
theorem item_of_record (t : tray) (hsize : ID_TRAY_FIRST + t.count < UINT_SIZE)
    (k : Nat) (a : Ptr) (n : tray_menu) (h : t.postOrder[k]? = some (a, n))
    (hn : n.isSep = false) :
    ∃ it ∈ allItems (_tray_menu [] t.menu ID_TRAY_FIRST).1,
      it.wID = ID_TRAY_FIRST + k ∧ it.dwItemData = some a ∧
      it.setSubMenu none = expectedItem (ID_TRAY_FIRST + k, a, n) := by
  rw [menu_eq t hsize]
  have hx : (ID_TRAY_FIRST + k, a, n) ∈
      List.enumFrom ID_TRAY_FIRST (postOrder [] 0 (t.menu.getD [])) := by
    rw [List.mk_mem_enumFrom_iff_le_and_getElem?_sub]
    refine ⟨by omega, ?_⟩
    have : ID_TRAY_FIRST + k - ID_TRAY_FIRST = k := by omega
    rw [this]
    exact h
  obtain ⟨it, hit, hit2⟩ := exists_allItems_menuOf _ _ _ _ _ hx
  refine ⟨it, hit, ?_, ?_, hit2⟩
  · have := congrArg MENUITEM.wID hit2
    rw [expectedItem_wID] at this
    simpa [hn] using this
  · have := congrArg MENUITEM.dwItemData hit2
    rw [expectedItem_dwItemData] at this
    simpa [hn] using this

/-- An item of the menu built for a tray is a separator item, with identifier
1 and no item data, or the item of a record that is not a separator, with
its address as item data and its post-order number as identifier. -/
theorem record_of_item (t : tray) (hsize : ID_TRAY_FIRST + t.count < UINT_SIZE)
    (it : MENUITEM) (h : it ∈ allItems (_tray_menu [] t.menu ID_TRAY_FIRST).1) :
    (it.wID = 1 ∧ it.dwItemData = none ∧ it.setSubMenu none = separatorItem) ∨
    ∃ k a n, t.postOrder[k]? = some (a, n) ∧ n.isSep = false ∧
      it.wID = ID_TRAY_FIRST + k ∧ it.dwItemData = some a ∧
      it.setSubMenu none = expectedItem (ID_TRAY_FIRST + k, a, n) := by
  rw [menu_eq t hsize] at h
  obtain ⟨⟨k, a, n⟩, hx, hx2⟩ := mem_allItems_menuOf _ _ _ _ _ h
  rw [List.mk_mem_enumFrom_iff_le_and_getElem?_sub] at hx
  have hw := congrArg MENUITEM.wID hx2
  have hd := congrArg MENUITEM.dwItemData hx2
  rw [expectedItem_wID] at hw
  rw [expectedItem_dwItemData] at hd
  simp only [wID_setSubMenu, dwItemData_setSubMenu] at hw hd
  by_cases hs : n.isSep = true
  · left
    simp [hs] at hw hd
    refine ⟨hw, hd, ?_⟩
    rw [hx2]; simp [expectedItem, hs]
  · right
    simp [hs] at hw hd
    refine ⟨k - ID_TRAY_FIRST, a, n, hx.2, by simpa using hs, by omega, hd, ?_⟩
    have : ID_TRAY_FIRST + (k - ID_TRAY_FIRST) = k := by omega
    rw [this]; exact hx2

/-- The handle of an address is the post-order number, from ID_TRAY_FIRST, of
the record at that address, when the record is not a separator. -/
theorem handle_eq_some_iff (t : tray) (hsize : ID_TRAY_FIRST + t.count < UINT_SIZE)
    (a : Ptr) (h : Nat) :
    handle (_tray_menu [] t.menu ID_TRAY_FIRST).1 a = some h ↔
      ∃ k n, t.postOrder[k]? = some (a, n) ∧ n.isSep = false ∧ h = ID_TRAY_FIRST + k := by
  unfold handle
  constructor
  · intro hh
    simp only [Option.map_eq_some'] at hh
    obtain ⟨it, hf, hw⟩ := hh
    have hmem := List.mem_of_find?_eq_some hf
    have hp := List.find?_some hf
    simp at hp
    rcases record_of_item t hsize it hmem with ⟨_, h2, _⟩ | ⟨k, b, n, h1, h2, h3, h4, _⟩
    · rw [h2] at hp; simp at hp
    · rw [h4] at hp
      simp at hp
      subst hp
      exact ⟨k, n, h1, h2, by omega⟩
  · rintro ⟨k, n, h1, h2, h3⟩
    obtain ⟨it, hit, hw, hd, _⟩ := item_of_record t hsize k a n h1 h2
    cases hf : (allItems (_tray_menu [] t.menu ID_TRAY_FIRST).1).find?
        (fun it => it.dwItemData == some a) with
    | none =>
      rw [List.find?_eq_none] at hf
      have := hf it hit
      simp [hd] at this
    | some it2 =>
      have hmem := List.mem_of_find?_eq_some hf
      have hp := List.find?_some hf
      simp at hp
      rcases record_of_item t hsize it2 hmem with ⟨_, h5, _⟩ | ⟨k2, b, n2, h4, h5, h6, h7, _⟩
      · rw [h5] at hp; simp at hp
      · rw [h7] at hp
        simp at hp
        subst hp
        have := postOrder_index_unique _ _ _ k k2 (b, n) (b, n2) h1 h4 rfl
        subst this
        simp [h6, h3]

theorem tray_update_hmenu (s : Win) (t : tray) :
    (tray_update s t).hmenu = some (_tray_menu [] t.menu ID_TRAY_FIRST).1 := by
  unfold tray_update DefWindowProc Win.push
  cases s.hIcon <;> cases s.hmenu <;> rfl

/-- What `case WM_COMMAND:` does when the current menu is the one built for the
tray `t` and the memory still holds `t`: an identifier below ID_TRAY_FIRST
goes to DefWindowProc; an identifier that is the post-order number of a
record that is not a separator calls the callback of that record, if it has
one, with the record as argument; any other identifier does nothing. -/
theorem _tray_wnd_proc_command_eq (t : tray) (hsize : ID_TRAY_FIRST + t.count < UINT_SIZE)
    (s : Win) (hs : s.hmenu = some (_tray_menu [] t.menu ID_TRAY_FIRST).1)
    (msg wparam lparam : Nat) :
    _tray_wnd_proc_command t s msg wparam lparam =
      if ID_TRAY_FIRST ≤ wparam % UINT_SIZE then
        match t.postOrder[wparam % UINT_SIZE - ID_TRAY_FIRST]? with
        | some (a, n) =>
          if n.isSep then some (0, s)
          else
            match n.cb with
            | some f => some (0, s.push (.callback f a))
            | none => some (0, s)
        | none => some (0, s)
      else some (DefWindowProc s msg wparam lparam) := by
  unfold _tray_wnd_proc_command
  simp only [ge_iff_le]
  generalize wparam % UINT_SIZE = w
  by_cases hge : ID_TRAY_FIRST ≤ w
  · rw [if_pos hge, if_pos hge]
    simp only [hs]
    have hFALSE : ¬ (FALSE ≠ 0) := by decide
    have hmask : (MIIM_ID ||| MIIM_DATA) &&& MIIM_DATA ≠ 0 := by decide
    by_cases hrec : ∃ a n, t.postOrder[w - ID_TRAY_FIRST]? = some (a, n) ∧
        n.isSep = false
    · obtain ⟨a, n, h1, h2⟩ := hrec
      obtain ⟨it, hit, hw, hd, _⟩ := item_of_record t hsize _ a n h1 h2
      have hw2 : it.wID = w := by omega
      obtain ⟨j, q, y, hf, hy, hyw⟩ :=
        MENU_FindItem_complete (w) _ ⟨it, hit, hw2⟩ 0 none
      have hymem := itemAt_mem _ _ _ hy
      have hyd : y.dwItemData = some a := by
        rcases record_of_item t hsize y hymem with ⟨h3, _, _⟩ | ⟨k, b, n2, h3, h4, h5, h6, _⟩
        · have h1000 : 1000 ≤ w := hge
          omega
        · have hk : k = w - ID_TRAY_FIRST := by omega
          rw [hk, h1] at h3
          simp at h3
          rw [h6, h3.1]
      have hderef := tray_deref_postOrder t (a, n) (List.getElem?_mem h1)
      simp only [Nat.zero_add] at hf
      simp only [GetMenuItemInfo, if_neg hFALSE, hf, hy, MENUITEMINFO.zero, if_pos hmask, hyd,
        hderef, h1, h2]
      simp
    · have hnone : ∀ it ∈ allItems (_tray_menu [] t.menu ID_TRAY_FIRST).1,
          it.wID ≠ w := by
        intro it hit hw
        rcases record_of_item t hsize it hit with ⟨h3, _, _⟩ | ⟨k, b, n2, h3, h4, h5, _, _⟩
        · have h1000 : 1000 ≤ w := hge
          omega
        · apply hrec
          have hk : k = w - ID_TRAY_FIRST := by omega
          rw [hk] at h3
          exact ⟨b, n2, h3, h4⟩
      simp only [GetMenuItemInfo, if_neg hFALSE, MENU_FindItem_none _ _ hnone 0 none]
      cases hl : t.postOrder[w - ID_TRAY_FIRST]? with
      | none => rfl
      | some x =>
        obtain ⟨a, n⟩ := x
        have : n.isSep = true := by
          by_contra hcon
          exact hrec ⟨a, n, hl, by simpa using hcon⟩
        simp [this]
  · rw [if_neg hge, if_neg hge]

theorem _tray_wnd_proc_WM_COMMAND (env : Env) (mem : tray) (s : Win) (wparam lparam : Nat) :
    _tray_wnd_proc env mem s WM_COMMAND wparam lparam =
      _tray_wnd_proc_command mem s WM_COMMAND wparam lparam := by
  simp [_tray_wnd_proc, WM_COMMAND, WM_CLOSE, WM_DESTROY, WM_TRAY_CALLBACK_MESSAGE, WM_USER]

/-- Dispatch of the handle of a record: the callback of the record, if any,
is called with the record. -/
theorem dispatch_handle (env : Env) (s : Win) (t : tray)
    (hsize : ID_TRAY_FIRST + t.count < UINT_SIZE)
    (hs : s.hmenu = some (_tray_menu [] t.menu ID_TRAY_FIRST).1)
    (k : Nat) (a : Ptr) (n : tray_menu) (hk : t.postOrder[k]? = some (a, n))
    (hn : n.isSep = false) (lparam : Nat) :
    _tray_wnd_proc env t s WM_COMMAND (ID_TRAY_FIRST + k) lparam =
      some (0, match n.cb with
               | some f => s.push (.callback f a)
               | none => s) := by
  rw [_tray_wnd_proc_WM_COMMAND, _tray_wnd_proc_command_eq t hsize s hs]
  have hlt : k < t.count := by
    rw [← tray_postOrder_length]
    exact (List.getElem?_eq_some.mp hk).1
  have hmod : (ID_TRAY_FIRST + k) % UINT_SIZE = ID_TRAY_FIRST + k :=
    Nat.mod_eq_of_lt (by omega)
  have hsub : ID_TRAY_FIRST + k - ID_TRAY_FIRST = k := by omega
  rw [hmod, if_pos (by omega), hsub, hk]
  simp only [hn]
  cases n.cb <;> simp

/-! ### Items of the menu, whatever the counter does -/

theorem allItems_take_drop (h : HMENU) (i : Nat) :
    allItems h = allItems (h.take i) ++ allItems (h.drop i) := by
  rw [← allItems_append, List.take_append_drop]

theorem mem_allItems_of_mem (h : HMENU) (x : MENUITEM) (hx : x ∈ h) (y : MENUITEM)
    (hy : y ∈ allItems_item x) : y ∈ allItems h := by
  obtain ⟨l1, l2, rfl⟩ := List.append_of_mem hx
  simp [allItems_append, allItems_cons, hy]

theorem insertAt_cons_cons (h : HMENU) (new : MENUITEM) (i j : Nat) (q : Ptr) :
    insertAt h new (i :: j :: q) =
      match h[i]? with
      | none => h
      | some it =>
        match it.hSubMenu with
        | none => h
        | some sub =>
          h.take i ++ it.setSubMenu (some (insertAt sub new (j :: q))) :: h.drop (i + 1) := by
  rw [insertAt]

/-- Inserting an item at a location adds the items of the new item and keeps
every other item up to its submenu. -/
theorem mem_allItems_insertAt (new : MENUITEM) : ∀ (loc : Ptr) (h : HMENU) (it : MENUITEM),
    it ∈ allItems (insertAt h new loc) →
    ∃ it0, (it0 ∈ allItems h ∨ it0 ∈ allItems_item new) ∧
      it.setSubMenu none = it0.setSubMenu none
  | [], h, it, hit => ⟨it, Or.inl (by simpa [insertAt] using hit), rfl⟩
  | [i], h, it, hit => by
    simp only [insertAt] at hit
    rw [allItems_append, allItems_cons] at hit
    rw [allItems_take_drop h i]
    simp only [List.mem_append] at hit ⊢
    rcases hit with h1 | h1 | h1
    · exact ⟨it, Or.inl (Or.inl h1), rfl⟩
    · exact ⟨it, Or.inr h1, rfl⟩
    · exact ⟨it, Or.inl (Or.inr h1), rfl⟩
  | i :: j :: q, h, it, hit => by
    rw [insertAt_cons_cons] at hit
    cases hi : h[i]? with
    | none =>
      simp only [hi] at hit
      exact ⟨it, Or.inl hit, rfl⟩
    | some x =>
      simp only [hi] at hit
      cases hs : x.hSubMenu with
      | none =>
        simp only [hs] at hit
        exact ⟨it, Or.inl hit, rfl⟩
      | some sub =>
        simp only [hs] at hit
        have hx : x ∈ h := List.getElem?_mem hi
        rw [allItems_append, allItems_cons] at hit
        simp only [List.mem_append] at hit
        rcases hit with h1 | h1 | h1
        · refine ⟨it, Or.inl ?_, rfl⟩
          rw [allItems_take_drop h i]
          exact List.mem_append.mpr (Or.inl h1)
        · have hform : allItems_item (x.setSubMenu (some (insertAt sub new (j :: q)))) =
              allItems (insertAt sub new (j :: q)) ++
                [x.setSubMenu (some (insertAt sub new (j :: q)))] :=
            allItems_item_sub _ _ (by cases x; rfl)
          rw [hform] at h1
          rcases List.mem_append.mp h1 with h2 | h2
          · obtain ⟨it0, h3, h4⟩ := mem_allItems_insertAt new (j :: q) sub it h2
            rcases h3 with h3 | h3
            · exact ⟨it0, Or.inl (mem_allItems_of_mem h x hx it0
                (sub_mem_allItems_item x sub hs it0 h3)), h4⟩
            · exact ⟨it0, Or.inr h3, h4⟩
          · simp at h2
            subst h2
            refine ⟨x, Or.inl (mem_allItems_of_mem h x hx x (self_mem_allItems_item x)), ?_⟩
            cases x; rfl
        · refine ⟨it, Or.inl ?_, rfl⟩
          rw [allItems_take_drop h (i + 1)]
          exact List.mem_append.mpr (Or.inr h1)

/-- Whatever the position, inserting an item adds the items of the new item and
keeps every other item up to its submenu. -/
theorem mem_allItems_MENU_InsertItem (h : HMENU) (pos flags : Nat) (new it : MENUITEM)
    (hit : it ∈ allItems (MENU_InsertItem h pos flags new)) :
    ∃ it0, (it0 ∈ allItems h ∨ it0 ∈ allItems_item new) ∧
      it.setSubMenu none = it0.setSubMenu none := by
  unfold MENU_InsertItem at hit
  have happ : ∀ it, it ∈ allItems (h ++ [new]) →
      ∃ it0, (it0 ∈ allItems h ∨ it0 ∈ allItems_item new) ∧
        it.setSubMenu none = it0.setSubMenu none := by
    intro it hit
    rw [allItems_append, allItems_cons, allItems_nil, List.append_nil] at hit
    exact ⟨it, List.mem_append.mp hit, rfl⟩
  split_ifs at hit with h1 h2
  · exact happ it hit
  · exact mem_allItems_insertAt new [pos] h it (by simpa [insertAt] using hit)
  · cases hf : MENU_FindItem h pos 0 none with
    | none =>
      simp only [hf] at hit
      exact happ it hit
    | some loc =>
      simp only [hf] at hit
      exact mem_allItems_insertAt new loc h it hit

theorem BinderItem_of_shallow (L : List (Ptr × tray_menu)) (it it0 : MENUITEM)
    (h : it.setSubMenu none = it0.setSubMenu none) (h0 : BinderItem L it0) : BinderItem L it := by
  have e1 : it.fType = it0.fType := by
    have := congrArg MENUITEM.fType h
    simpa using this
  have e2 : it.dwItemData = it0.dwItemData := by
    have := congrArg MENUITEM.dwItemData h
    simpa using this
  rcases h0 with h0 | ⟨h1, x, hx, h2, h3⟩
  · exact Or.inl (h.trans h0)
  · exact Or.inr ⟨e1.trans h1, x, hx, h2, e2.trans h3⟩

theorem BinderItem_mono (L1 L2 : List (Ptr × tray_menu)) (hsub : ∀ x ∈ L1, x ∈ L2)
    (it : MENUITEM) (h : BinderItem L1 it) : BinderItem L2 it := by
  rcases h with h | ⟨h1, x, hx, h2, h3⟩
  · exact Or.inl h
  · exact Or.inr ⟨h1, x, hsub x hx, h2, h3⟩

theorem _tray_menu_body_leaf (a : Ptr) (x : Option String) (d c : Int) (f : Option Nat)
    (y : Nat) (t : String) (acc : HMENU) (id : Nat) :
    _tray_menu_body a (.mk x d c f y none) t acc id =
      if isSeparator t then (InsertMenu acc id MF_SEPARATOR TRUE "", id)
      else (InsertMenuItem acc id TRUE (_tray_menu_item a t d c none id), id) := by
  simp [_tray_menu_body]

theorem _tray_menu_body_sub (a : Ptr) (x : Option String) (d c : Int) (f : Option Nat)
    (y : Nat) (s : List tray_menu) (t : String) (acc : HMENU) (id : Nat) :
    _tray_menu_body a (.mk x d c f y (some s)) t acc id =
      if isSeparator t then (InsertMenu acc id MF_SEPARATOR TRUE "", id)
      else
        (InsertMenuItem acc (_tray_menu_loop a 0 s CreatePopupMenu id).2 TRUE
          (_tray_menu_item a t d c (some (_tray_menu_loop a 0 s CreatePopupMenu id).1)
            (_tray_menu_loop a 0 s CreatePopupMenu id).2),
         (_tray_menu_loop a 0 s CreatePopupMenu id).2) := by
  simp [_tray_menu_body]

/-- Whatever the value of the counter, wrapped or not, every item of the menu
the loop returns is an item of the menu it started from (up to its submenu)
or an item made by the binder for a record it walked. -/
theorem _tray_menu_loop_items_both :
    (∀ (m : List tray_menu) (p : Ptr) (i : Nat) (acc : HMENU) (id : Nat) (it : MENUITEM),
      it ∈ allItems (_tray_menu_loop p i m acc id).1 →
      (∃ it0 ∈ allItems acc, it.setSubMenu none = it0.setSubMenu none) ∨
      BinderItem (postOrder p i m) it) ∧
    (∀ (e : tray_menu) (a : Ptr) (t : String) (acc : HMENU) (id : Nat) (it : MENUITEM),
      e.text = some t → it ∈ allItems (_tray_menu_body a e t acc id).1 →
      (∃ it0 ∈ allItems acc, it.setSubMenu none = it0.setSubMenu none) ∨
      BinderItem (postOrderNode a e t) it) := by
  have hsepitem : ∀ (L : List (Ptr × tray_menu)) (acc : HMENU) (id : Nat) (it : MENUITEM),
      it ∈ allItems (InsertMenu acc id MF_SEPARATOR TRUE "") →
      (∃ it0 ∈ allItems acc, it.setSubMenu none = it0.setSubMenu none) ∨ BinderItem L it := by
    intro L acc id it hit
    obtain ⟨it0, h1, h2⟩ := mem_allItems_MENU_InsertItem _ _ _ _ _ hit
    rcases h1 with h1 | h1
    · exact Or.inl ⟨it0, h1, h2⟩
    · right
      have : it0 = separatorItem := by
        have hl : allItems_item (InsertMenu_item MF_SEPARATOR TRUE "") =
            [InsertMenu_item MF_SEPARATOR TRUE ""] := allItems_item_leaf _ rfl
        rw [hl] at h1
        simpa [separatorItem] using h1
      subst this
      left
      rw [h2, separatorItem_eq]; rfl
  refine tray_menu.induct
    (P := fun m => ∀ (p : Ptr) (i : Nat) (acc : HMENU) (id : Nat) (it : MENUITEM),
      it ∈ allItems (_tray_menu_loop p i m acc id).1 →
      (∃ it0 ∈ allItems acc, it.setSubMenu none = it0.setSubMenu none) ∨
      BinderItem (postOrder p i m) it)
    (Q := fun e => ∀ (a : Ptr) (t : String) (acc : HMENU) (id : Nat) (it : MENUITEM),
      e.text = some t → it ∈ allItems (_tray_menu_body a e t acc id).1 →
      (∃ it0 ∈ allItems acc, it.setSubMenu none = it0.setSubMenu none) ∨
      BinderItem (postOrderNode a e t) it)
    ?_ ?_ ?_ ?_
  · intro p i acc id it hit
    simp only [_tray_menu_loop] at hit
    exact Or.inl ⟨it, hit, rfl⟩
  · intro e rest he hrest p i acc id it hit
    rw [_tray_menu_loop_cons] at hit
    rw [postOrder_cons]
    cases ht : e.text with
    | none =>
      simp only [ht] at hit
      exact Or.inl ⟨it, hit, rfl⟩
    | some t =>
      simp only [ht] at hit
      simp only []
      rcases hrest p (i + 1) _ _ it hit with ⟨it0, h1, h2⟩ | h1
      · rcases he (p ++ [i]) t acc id it0 ht h1 with ⟨it1, h3, h4⟩ | h3
        · exact Or.inl ⟨it1, h3, h2.trans h4⟩
        · right
          apply BinderItem_of_shallow _ it it0 h2
          exact BinderItem_mono _ _ (fun x hx => List.mem_append.mpr (Or.inl hx)) it0 h3
      · right
        exact BinderItem_mono _ _ (fun x hx => List.mem_append.mpr (Or.inr hx)) it h1
  · intro tx d c f y a t acc id it ht hit
    simp only [tray_menu.text] at ht
    subst ht
    rw [_tray_menu_body_leaf] at hit
    by_cases hs : isSeparator t = true
    · rw [if_pos hs] at hit
      exact hsepitem _ acc id it hit
    · rw [if_neg hs] at hit
      obtain ⟨it0, h1, h2⟩ := mem_allItems_MENU_InsertItem acc id
        (if TRUE ≠ 0 then MF_BYPOSITION else 0)
        (MENUITEM.ofInfo (_tray_menu_item a t d c none id)) it hit
      rcases h1 with h1 | h1
      · exact Or.inl ⟨it0, h1, h2⟩
      · right
        rw [ofInfo_item_none] at h1
        simp only [allItems_item] at h1
        simp at h1
        subst h1
        apply BinderItem_of_shallow _ it _ h2
        right
        refine ⟨rfl, (a, .mk (some t) d c f y none), by simp [postOrderNode], ?_, rfl⟩
        simpa [tray_menu.isSep, tray_menu.text] using hs
  · intro tx d c f y s hsub a t acc id it ht hit
    simp only [tray_menu.text] at ht
    subst ht
    rw [_tray_menu_body_sub] at hit
    by_cases hs : isSeparator t = true
    · rw [if_pos hs] at hit
      exact hsepitem _ acc id it hit
    · rw [if_neg hs] at hit
      have hs2 : isSeparator t = false := by simpa using hs
      obtain ⟨it0, h1, h2⟩ := mem_allItems_MENU_InsertItem acc
        (_tray_menu_loop a 0 s CreatePopupMenu id).2
        (if TRUE ≠ 0 then MF_BYPOSITION else 0)
        (MENUITEM.ofInfo (_tray_menu_item a t d c
          (some (_tray_menu_loop a 0 s CreatePopupMenu id).1)
          (_tray_menu_loop a 0 s CreatePopupMenu id).2)) it hit
      rcases h1 with h1 | h1
      · exact Or.inl ⟨it0, h1, h2⟩
      · right
        apply BinderItem_of_shallow _ it it0 h2
        rw [ofInfo_item_some] at h1
        simp only [allItems_item] at h1
        rcases List.mem_append.mp h1 with h3 | h3
        · rcases hsub a 0 CreatePopupMenu id it0 h3 with ⟨it1, h4, _⟩ | h4
          · simp [CreatePopupMenu, allItems_nil] at h4
          · apply BinderItem_mono _ _ _ it0 h4
            intro x hx
            simp [postOrderNode, hs2, hx]
        · simp at h3
          subst h3
          right
          refine ⟨rfl, (a, .mk (some t) d c f y (some s)), by simp [postOrderNode, hs2], ?_, rfl⟩
          simpa [tray_menu.isSep, tray_menu.text] using hs

/-- Every item of the menu `_tray_menu` builds for a tray, from any counter
value, is a separator item or the item of a record of the tree that is not
a separator. -/
theorem _tray_menu_items (t : tray) (id : Nat) (it : MENUITEM)
    (hit : it ∈ allItems (_tray_menu [] t.menu id).1) : BinderItem t.postOrder it := by
  unfold _tray_menu at hit
  unfold tray.postOrder
  cases hm : t.menu with
  | none =>
    simp [hm, CreatePopupMenu, allItems_nil] at hit
  | some m =>
    simp only [hm] at hit
    rcases _tray_menu_loop_items_both.1 m [] 0 CreatePopupMenu id it hit with ⟨it0, h1, _⟩ | h1
    · simp [CreatePopupMenu, allItems_nil] at h1
    · simpa using h1

theorem separator_shallow (it : MENUITEM) (h : it.setSubMenu none = separatorItem) :
    it.dwItemData = none ∧ it.wID = 1 ∧ it.fType = MF_SEPARATOR := by
  cases it with
  | mk ty st w sub d x =>
    rw [separatorItem_eq] at h
    simp only [setSubMenu_mk, MENUITEM.mk.injEq] at h
    obtain ⟨h1, _, h3, _, h5, _⟩ := h
    exact ⟨h5, h3, h1⟩

theorem tray_update_log (s : Win) (t : tray) (prev : HMENU) (h : s.hmenu = some prev) :
    ∃ l, (tray_update s t).log = l ++ [.DestroyMenu prev] := by
  unfold tray_update DefWindowProc Win.push
  rw [h]
  cases s.hIcon <;> exact ⟨_, rfl⟩

end Windows

/-! ## Sibling sequences -/

theorem siblings_cons (e : tray_menu) (rest : List tray_menu) :
    siblings (e :: rest) =
      match e.text with
      | none => []
      | some _ => e :: siblings rest := by
  simp [siblings]

theorem isSep_of_text (e : tray_menu) (t : String) (h : e.text = some t) :
    e.isSep = isSeparator t := by
  simp [tray_menu.isSep, h]

namespace Windows

theorem menuOf_length : ∀ (m : List tray_menu) (p : Ptr) (i id : Nat),
    (menuOf p i m id).length = (siblings m).length
  | [], p, i, id => by simp [menuOf, siblings]
  | e :: rest, p, i, id => by
    rw [menuOf_cons, siblings_cons]
    cases e.text with
    | none => simp
    | some t => simp [menuOf_length rest]

/-- The item at position `j` of the menu built is the item of the record at
position `j` of the sibling sequence. -/
theorem menuOf_getElem : ∀ (m : List tray_menu) (p : Ptr) (i id j : Nat) (e : tray_menu),
    (siblings m)[j]? = some e →
    ∃ t id2, e.text = some t ∧ id ≤ id2 ∧ id2 + countNode e t ≤ id + count m ∧
      (menuOf p i m id)[j]? = some (itemOf (p ++ [i + j]) e t id2)
  | [], p, i, id, j, e, h => by simp [siblings] at h
  | x :: rest, p, i, id, j, e, h => by
    rw [siblings_cons] at h
    rw [menuOf_cons, count_cons]
    cases ht : x.text with
    | none => simp [ht] at h
    | some t =>
      simp only [ht] at h
      simp only []
      cases j with
      | zero =>
        simp at h
        subst h
        exact ⟨t, id, ht, Nat.le_refl _, by omega, by simp⟩
      | succ j =>
        simp at h
        obtain ⟨t2, id2, h1, h2, h3, h4⟩ :=
          menuOf_getElem rest p (i + 1) (id + countNode x t) j e h
        refine ⟨t2, id2, h1, by omega, by omega, ?_⟩
        simp only [List.getElem?_cons_succ]
        rw [h4]
        have : i + 1 + j = i + (j + 1) := by omega
        rw [this]

end Windows

namespace Linux

mutual
/-- Induction over menu shells and widgets together. -/
theorem GtkWidget.induct_shell {P : List GtkWidget → Prop} {Q : GtkWidget → Prop}
    (hnil : P []) (hcons : ∀ w rest, Q w → P rest → P (w :: rest))
    (hleaf : ∀ k l a s v h, Q (.mk k l a none s v h))
    (hsub : ∀ k l a sub s v h, P sub → Q (.mk k l a (some sub) s v h)) : ∀ m, P m
  | [] => hnil
  | w :: rest =>
    hcons w rest (GtkWidget.induct_widget hnil hcons hleaf hsub w)
      (GtkWidget.induct_shell hnil hcons hleaf hsub rest)
/-- The widget half of `GtkWidget.induct_shell`. -/
theorem GtkWidget.induct_widget {P : List GtkWidget → Prop} {Q : GtkWidget → Prop}
    (hnil : P []) (hcons : ∀ w rest, Q w → P rest → P (w :: rest))
    (hleaf : ∀ k l a s v h, Q (.mk k l a none s v h))
    (hsub : ∀ k l a sub s v h, P sub → Q (.mk k l a (some sub) s v h)) : ∀ w, Q w
  | .mk k l a none s v h => hleaf k l a s v h
  | .mk k l a (some sub) s v h =>
    hsub k l a sub s v h (GtkWidget.induct_shell hnil hcons hleaf hsub sub)
end

theorem allWidgets_nil : allWidgets [] = [] := by
  simp [allWidgets]

theorem allWidgets_cons (w : GtkWidget) (rest : List GtkWidget) :
    allWidgets (w :: rest) = allWidgets_item w ++ allWidgets rest := by
  simp [allWidgets]

theorem allWidgets_append (a b : List GtkWidget) :
    allWidgets (a ++ b) = allWidgets a ++ allWidgets b := by
  induction a with
  | nil => simp [allWidgets_nil]
  | cons x xs ih => simp [allWidgets_cons, ih]

theorem self_mem_allWidgets_item (w : GtkWidget) : w ∈ allWidgets_item w := by
  cases w with
  | mk k l a sub s v h =>
    cases sub <;> simp [allWidgets_item]

theorem sub_mem_allWidgets_item (w : GtkWidget) (sub : GtkMenuShell) (h : w.submenu = some sub)
    (y : GtkWidget) (hy : y ∈ allWidgets sub) : y ∈ allWidgets_item w := by
  cases w with
  | mk k l a sub0 s v h0 =>
    simp [GtkWidget.submenu] at h
    subst h
    simp [allWidgets_item, hy]

/-- A widget at a location of a menu shell is one of its widgets. -/
theorem widgetAt_mem : ∀ (loc : Ptr) (m : GtkMenuShell) (w : GtkWidget),
    widgetAt m loc = some w → w ∈ allWidgets m
  | [], m, w, hl => by simp [widgetAt] at hl
  | i :: q, m, w, hl => by
    rw [widgetAt] at hl
    cases hi : m[i]? with
    | none => simp [hi] at hl
    | some x =>
      simp only [hi] at hl
      have hx : x ∈ m := List.getElem?_mem hi
      have hsplit : ∀ y ∈ allWidgets_item x, y ∈ allWidgets m := by
        intro y hy
        obtain ⟨l1, l2, rfl⟩ := List.append_of_mem hx
        simp [allWidgets_append, allWidgets_cons, hy]
      cases q with
      | nil =>
        simp at hl
        subst hl
        exact hsplit _ (self_mem_allWidgets_item _)
      | cons j q2 =>
        simp only at hl
        cases hs : x.submenu with
        | none => simp [hs] at hl
        | some sub =>
          simp only [hs] at hl
          have := widgetAt_mem (j :: q2) sub w hl
          exact hsplit _ (sub_mem_allWidgets_item x sub hs w this)

theorem Linux_tray_menu_loop_cons (p : Ptr) (i : Nat) (e : tray_menu) (rest : List tray_menu)
    (menu : GtkMenuShell) :
    _tray_menu_loop p i (e :: rest) menu =
      match e.text with
      | none => menu
      | some t =>
        _tray_menu_loop p (i + 1) rest
          (gtk_menu_shell_append menu (gtk_widget_show (_tray_menu_body (p ++ [i]) e t))) := by
  simp [_tray_menu_loop]

/-- The loop of the Linux `_tray_menu` appends `widgetsOf`, one shown item per
record in order, to the shell under construction. -/
theorem Linux_tray_menu_loop_eq : ∀ (m : List tray_menu) (p : Ptr) (i : Nat)
    (menu : GtkMenuShell), _tray_menu_loop p i m menu = menu ++ widgetsOf p i m
  | [], p, i, menu => by simp [_tray_menu_loop, widgetsOf]
  | e :: rest, p, i, menu => by
    rw [Linux_tray_menu_loop_cons]
    cases ht : e.text with
    | none => simp [widgetsOf, ht]
    | some t =>
      simp only []
      rw [Linux_tray_menu_loop_eq rest]
      simp [widgetsOf, ht, gtk_menu_shell_append]

theorem Linux_tray_menu_eq (p : Ptr) (m : List tray_menu) :
    _tray_menu p (some m) = widgetsOf p 0 m := by
  simp [_tray_menu, Linux_tray_menu_loop_eq, gtk_menu_new]

theorem widgetsOf_length : ∀ (m : List tray_menu) (p : Ptr) (i : Nat),
    (widgetsOf p i m).length = (siblings m).length
  | [], p, i => by simp [widgetsOf, siblings]
  | e :: rest, p, i => by
    rw [siblings_cons]
    cases ht : e.text with
    | none => simp [widgetsOf, ht]
    | some t => simp [widgetsOf, ht, widgetsOf_length rest]

/-- The widget at position `j` of the shell built is the shown item of the
record at position `j` of the sibling sequence. -/
theorem widgetsOf_getElem : ∀ (m : List tray_menu) (p : Ptr) (i j : Nat) (e : tray_menu),
    (siblings m)[j]? = some e →
    ∃ t, e.text = some t ∧
      (widgetsOf p i m)[j]? = some (gtk_widget_show (_tray_menu_body (p ++ [i + j]) e t))
  | [], p, i, j, e, h => by simp [siblings] at h
  | x :: rest, p, i, j, e, h => by
    rw [siblings_cons] at h
    cases ht : x.text with
    | none => simp [ht] at h
    | some t =>
      simp only [ht] at h
      cases j with
      | zero =>
        simp at h
        subst h
        exact ⟨t, ht, by simp [widgetsOf, ht]⟩
      | succ j =>
        simp at h
        obtain ⟨t2, h1, h2⟩ := widgetsOf_getElem rest p (i + 1) j e h
        refine ⟨t2, h1, ?_⟩
        simp only [widgetsOf, ht, List.getElem?_cons_succ]
        rw [h2]
        have : i + 1 + j = i + (j + 1) := by omega
        rw [this]

theorem body_separator (a : Ptr) (e : tray_menu) (t : String) (h : isSeparator t = true) :
    gtk_widget_show (_tray_menu_body a e t) =
      .mk .separator_menu_item none false none true true [] := by
  cases e with
  | mk x d c f y s =>
    cases s <;> simp [_tray_menu_body, h, gtk_separator_menu_item_new, gtk_widget_show]

theorem body_submenu (a : Ptr) (x : Option String) (d c : Int) (f : Option Nat) (y : Nat)
    (s : List tray_menu) (t : String) (h : isSeparator t = false) :
    gtk_widget_show (_tray_menu_body a (.mk x d c f y (some s)) t) =
      .mk .menu_item (some t) false (some (_tray_menu a (some s))) (decide (d = 0)) true
        (match f with
         | some _ => [a]
         | none => []) := by
  cases f <;>
    simp [_tray_menu_body, h, _tray_menu_finish, gtk_menu_item_new_with_label,
      gtk_menu_item_set_submenu, gtk_widget_set_sensitive, g_signal_connect_activate,
      gtk_widget_show, _tray_menu]

theorem body_plain (a : Ptr) (x : Option String) (d : Int) (f : Option Nat) (y : Nat)
    (t : String) (h : isSeparator t = false) :
    gtk_widget_show (_tray_menu_body a (.mk x d (-1) f y none) t) =
      .mk .menu_item (some t) false none (decide (d = 0)) true
        (match f with
         | some _ => [a]
         | none => []) := by
  cases f <;>
    simp [_tray_menu_body, h, _tray_menu_finish, gtk_menu_item_new_with_label,
      gtk_widget_set_sensitive, g_signal_connect_activate, gtk_widget_show]

theorem body_check (a : Ptr) (x : Option String) (d c : Int) (f : Option Nat) (y : Nat)
    (t : String) (h : isSeparator t = false) (hc : c ≠ -1) :
    gtk_widget_show (_tray_menu_body a (.mk x d c f y none) t) =
      .mk .check_menu_item (some t) (decide (c ≠ 0)) none (decide (d = 0)) true
        (match f with
         | some _ => [a]
         | none => []) := by
  cases f <;>
    simp [_tray_menu_body, h, hc, _tray_menu_finish, gtk_check_menu_item_new_with_label,
      gtk_check_menu_item_set_active, gtk_widget_set_sensitive, g_signal_connect_activate,
      gtk_widget_show]

end Linux

namespace Windows

theorem Windows_tray_menu_some_eq (p : Ptr) (m : List tray_menu) (id : Nat)
    (hid : ID_TRAY_FIRST ≤ id) (hsize : id + count m < UINT_SIZE) :
    _tray_menu p (some m) id = (menuOf p 0 m id, id + count m) := by
  unfold _tray_menu
  simp only []
  rw [_tray_menu_loop_eq m p 0 CreatePopupMenu id hid hsize
    (by simp [CreatePopupMenu, allItems_nil]) (by simp [CreatePopupMenu])]
  simp [CreatePopupMenu]

theorem itemOf_separator (a : Ptr) (e : tray_menu) (t : String) (id : Nat)
    (h : isSeparator t = true) : itemOf a e t id = separatorItem := by
  cases e with
  | mk x d c f y s => cases s <;> simp [itemOf, h]

theorem itemOf_submenu (a : Ptr) (x : Option String) (d c : Int) (f : Option Nat) (y : Nat)
    (s : List tray_menu) (t : String) (id : Nat) (h : isSeparator t = false) :
    itemOf a (.mk x d c f y (some s)) t id =
      .mk 0 (_tray_menu_item a t d c none 0).fState (id + count s) (some (menuOf a 0 s id))
        (some a) (some t) := by
  simp [itemOf, h, ofInfo_item_some]

theorem itemOf_leaf (a : Ptr) (x : Option String) (d c : Int) (f : Option Nat) (y : Nat)
    (t : String) (id : Nat) (h : isSeparator t = false) :
    itemOf a (.mk x d c f y none) t id =
      .mk 0 (_tray_menu_item a t d c none 0).fState id none (some a) (some t) := by
  simp [itemOf, h, ofInfo_item_none]

theorem fState_checked (a : Ptr) (t : String) (d c : Int) :
    (_tray_menu_item a t d c none 0).fState &&& MFS_CHECKED ≠ 0 ↔ (c ≠ 0 ∧ c ≠ -1) := by
  unfold _tray_menu_item
  by_cases hd : d ≠ 0 <;> by_cases hc : (c ≠ 0 ∧ c ≠ -1)
  · simp only [if_pos hd, if_pos hc]
    simp [MENUITEMINFO.zero, MFS_DISABLED, MFS_CHECKED, hc]
  · simp only [if_pos hd, if_neg hc]
    simp [MENUITEMINFO.zero, MFS_DISABLED, MFS_CHECKED, hc]
    decide
  · simp only [if_neg hd, if_pos hc]
    simp [MENUITEMINFO.zero, MFS_DISABLED, MFS_CHECKED, hc]
  · simp only [if_neg hd, if_neg hc]
    simp [MENUITEMINFO.zero, MFS_DISABLED, MFS_CHECKED, hc]

theorem fState_disabled (a : Ptr) (t : String) (d c : Int) :
    (_tray_menu_item a t d c none 0).fState &&& MFS_DISABLED ≠ 0 ↔ d ≠ 0 := by
  unfold _tray_menu_item
  by_cases hd : d ≠ 0 <;> by_cases hc : (c ≠ 0 ∧ c ≠ -1)
  · simp only [if_pos hd, if_pos hc]
    simp [MENUITEMINFO.zero, MFS_DISABLED, MFS_CHECKED, hd]
  · simp only [if_pos hd, if_neg hc]
    simp [MENUITEMINFO.zero, MFS_DISABLED, MFS_CHECKED, hd]
  · simp only [if_neg hd, if_pos hc]
    simp [MENUITEMINFO.zero, MFS_DISABLED, MFS_CHECKED, hd]
    decide
  · simp only [if_neg hd, if_neg hc]
    simp [MENUITEMINFO.zero, MFS_DISABLED, MFS_CHECKED, hd]

end Windows

namespace Linux

theorem allWidgets_item_leaf (w : GtkWidget) (h : w.submenu = none) :
    allWidgets_item w = [w] := by
  cases w with
  | mk k l a sub s v h0 =>
    simp [GtkWidget.submenu] at h
    subst h
    simp [allWidgets_item]

theorem widgetsOf_cons (p : Ptr) (i : Nat) (e : tray_menu) (rest : List tray_menu) :
    widgetsOf p i (e :: rest) =
      match e.text with
      | none => []
      | some t =>
        gtk_widget_show (_tray_menu_body (p ++ [i]) e t) :: widgetsOf p (i + 1) rest := by
  simp [widgetsOf]

theorem allWidgets_widgetsOf_both :
    (∀ (m : List tray_menu) (p : Ptr) (i : Nat),
      allWidgets (widgetsOf p i m) =
        (postOrder p i m).map
          (fun x => gtk_widget_show (_tray_menu_body x.1 x.2 (x.2.text.getD "")))) ∧
    (∀ (e : tray_menu) (a : Ptr) (t : String), e.text = some t →
      allWidgets_item (gtk_widget_show (_tray_menu_body a e t)) =
        (postOrderNode a e t).map
          (fun x => gtk_widget_show (_tray_menu_body x.1 x.2 (x.2.text.getD "")))) := by
  refine tray_menu.induct
    (P := fun m => ∀ (p : Ptr) (i : Nat),
      allWidgets (widgetsOf p i m) =
        (postOrder p i m).map
          (fun x => gtk_widget_show (_tray_menu_body x.1 x.2 (x.2.text.getD ""))))
    (Q := fun e => ∀ (a : Ptr) (t : String), e.text = some t →
      allWidgets_item (gtk_widget_show (_tray_menu_body a e t)) =
        (postOrderNode a e t).map
          (fun x => gtk_widget_show (_tray_menu_body x.1 x.2 (x.2.text.getD ""))))
    ?_ ?_ ?_ ?_
  · intro p i
    simp [widgetsOf, postOrder, allWidgets_nil]
  · intro e rest he hrest p i
    rw [widgetsOf_cons, postOrder_cons]
    cases ht : e.text with
    | none => simp [allWidgets_nil]
    | some t =>
      simp only []
      rw [allWidgets_cons, he _ _ ht, hrest, List.map_append]
  · intro tx d c f y a t ht
    simp [tray_menu.text] at ht
    subst ht
    by_cases hs : isSeparator t = true
    · rw [body_separator _ _ _ hs]
      simp [postOrderNode, tray_menu.text, body_separator _ _ _ hs, allWidgets_item]
    · have hs2 : isSeparator t = false := by simpa using hs
      by_cases hc : c = -1
      · subst hc
        rw [body_plain _ _ _ _ _ _ hs2]
        simp [postOrderNode, tray_menu.text, body_plain _ _ _ _ _ _ hs2, allWidgets_item]
      · rw [body_check _ _ _ _ _ _ _ hs2 hc]
        simp [postOrderNode, tray_menu.text, body_check _ _ _ _ _ _ _ hs2 hc, allWidgets_item]
  · intro tx d c f y s hsub a t ht
    simp [tray_menu.text] at ht
    subst ht
    by_cases hs : isSeparator t = true
    · rw [body_separator _ _ _ hs]
      simp [postOrderNode, hs, tray_menu.text, body_separator _ _ _ hs, allWidgets_item]
    · have hs2 : isSeparator t = false := by simpa using hs
      rw [body_submenu _ _ _ _ _ _ _ _ hs2]
      simp [postOrderNode, hs2, tray_menu.text, body_submenu _ _ _ _ _ _ _ _ hs2,
        allWidgets_item, Linux_tray_menu_eq, hsub]

/-- The widgets of the shell built for a tray are the shown items of the
records of the tree. -/
theorem allWidgets_tray_menu (t : tray) :
    allWidgets (_tray_menu [] t.menu) =
      t.postOrder.map (fun x => gtk_widget_show (_tray_menu_body x.1 x.2 (x.2.text.getD ""))) := by
  unfold tray.postOrder
  cases t.menu with
  | none => simp [_tray_menu, gtk_menu_new, allWidgets_nil, postOrder]
  | some m =>
    rw [Linux_tray_menu_eq]
    exact allWidgets_widgetsOf_both.1 m [] 0

/-- The handler data and the sensitivity of the item built for a record. -/
theorem body_activate_sensitive (a : Ptr) (e : tray_menu) (t : String) :
    (gtk_widget_show (_tray_menu_body a e t)).activate =
      (if isSeparator t then []
       else
         match e.cb with
         | some _ => [a]
         | none => []) ∧
    (isSeparator t = false →
      (gtk_widget_show (_tray_menu_body a e t)).sensitive = decide (e.disabled = 0)) := by
  by_cases hs : isSeparator t = true
  · rw [body_separator _ _ _ hs]
    simp [hs, GtkWidget.activate]
  · have hs2 : isSeparator t = false := by simpa using hs
    cases e with
    | mk x d c f y s =>
      cases s with
      | some s =>
        rw [body_submenu _ _ _ _ _ _ _ _ hs2]
        simp [hs2, GtkWidget.activate, GtkWidget.sensitive, tray_menu.cb, tray_menu.disabled]
      | none =>
        by_cases hc : c = -1
        · subst hc
          rw [body_plain _ _ _ _ _ _ hs2]
          simp [hs2, GtkWidget.activate, GtkWidget.sensitive, tray_menu.cb, tray_menu.disabled]
        · rw [body_check _ _ _ _ _ _ _ hs2 hc]
          simp [hs2, GtkWidget.activate, GtkWidget.sensitive, tray_menu.cb, tray_menu.disabled]

end Linux

/-! ## The pump -/

namespace Windows

/-- Once the menu is gone (`hmenu == NULL`) the window procedure reads no
record: it returns, leaves the queue alone, keeps `hmenu` NULL and a quit
request pending. -/
theorem _tray_wnd_proc_exited (env : Env) (mem : tray) (s : Win) (msg wparam lparam : Nat)
    (hm : s.hmenu = none) (hq : s.quitPosted = true) :
    ∃ r s2, _tray_wnd_proc env mem s msg wparam lparam = some (r, s2) ∧
      s2.queue = s.queue ∧ s2.quitPosted = true ∧ s2.hmenu = none ∧ s2.hwnd = s.hwnd := by
  unfold _tray_wnd_proc
  split_ifs with h1 h2 h3 h4 h5
  · exact ⟨_, _, rfl, by simp [DestroyWindow, PostQuitMessage, Win.push, hm]⟩
  · exact ⟨_, _, rfl, by simp [PostQuitMessage, hm]⟩
  · cases hc : env.GetCursorPos with
    | none => exact ⟨_, _, rfl, by simp [DefWindowProc, Win.push, hm, hq]⟩
    | some pt =>
      simp only [Win.push, hm]
      exact ⟨_, _, rfl, by simp [DefWindowProc, Win.push, hm, hq]⟩
  · exact ⟨_, _, rfl, by simp [DefWindowProc, Win.push, hm, hq]⟩
  · unfold _tray_wnd_proc_command
    simp only [hm]
    split_ifs
    · exact ⟨_, _, rfl, by simp [DefWindowProc, Win.push, hm, hq]⟩
    · exact ⟨_, _, rfl, by simp [DefWindowProc, Win.push, hm, hq]⟩
  · exact ⟨_, _, rfl, by simp [DefWindowProc, Win.push, hm, hq]⟩

theorem tray_exit_state (s : Win) :
    (tray_exit s s.thread).quitPosted = true ∧ (tray_exit s s.thread).hmenu = none ∧
    (tray_exit s s.thread).queue = s.queue := by
  unfold tray_exit tray_exit_from_another_thread PostQuitMessage Win.push
  cases s.hIcon <;> cases s.hmenu <;> simp

theorem tray_update_queue_thread (s : Win) (t : tray) :
    (tray_update s t).queue = s.queue ∧ (tray_update s t).thread = s.thread := by
  unfold tray_update DefWindowProc Win.push
  cases s.hIcon <;> cases s.hmenu <;> simp

theorem tray_init_queue_thread (env : Env) (s : Win) (t : tray) :
    (tray_init env s t).2.queue = s.queue ∧ (tray_init env s t).2.thread = s.thread := by
  unfold tray_init
  by_cases h1 : env.RegisterClassEx = false
  · simp [h1]
  · by_cases h2 : env.CreateWindowEx = 0
    · simp [h1, h2]
    · simp [h1, h2, tray_update_queue_thread]

/-- In a state left by `tray_exit` (quit requested, menu gone) a blocking pump
returns -1 when no message is pending or the oldest one is WM_QUIT, and
otherwise removes and dispatches the oldest message and returns 0, the quit
request staying pending. -/
theorem tray_loop_exited (env : Env) (mem : tray) (s : Win) (msg : MSG)
    (hget : env.GetMessageFails = false) (hq : s.quitPosted = true) (hm : s.hmenu = none) :
    (s.queue = [] → ∃ s2, tray_loop env mem s 1 msg = some (-1, s2)) ∧
    (∀ m rest, s.queue = m :: rest → m.message = WM_QUIT →
      ∃ s2, tray_loop env mem s 1 msg = some (-1, s2)) ∧
    (∀ m rest, s.queue = m :: rest → m.message ≠ WM_QUIT →
      ∃ s2, tray_loop env mem s 1 msg = some (0, s2) ∧ s2.queue = rest ∧
        s2.quitPosted = true ∧ s2.hmenu = none) := by
  refine ⟨?_, ?_, ?_⟩
  · intro hqueue
    simp [tray_loop, hget, nextMessage, hqueue, hq]
  · intro m rest hqueue hquit
    simp [tray_loop, hget, nextMessage, hqueue, hquit]
  · intro m rest hqueue hquit
    have hb : (1 : Int) ≠ 0 := by decide
    simp only [tray_loop, if_pos hb, hget, Bool.false_eq_true, if_false, nextMessage, hqueue,
      if_neg hquit, DispatchMessage]
    split_ifs with h1
    · obtain ⟨r, s2, e, e1, e2, e3, _⟩ := _tray_wnd_proc_exited env mem
        ((({ s with queue := rest } : Win).push (.TranslateMessage m)).push (.DispatchMessage m))
        m.message m.wParam m.lParam (by simp [Win.push, hm]) (by simp [Win.push, hq])
      simp only [Win.push] at e
      simp only [Win.push, e]
      exact ⟨s2, rfl, by simpa [Win.push] using e1, e2, e3⟩
    · exact ⟨_, rfl, by simp [Win.push], by simp [Win.push, hq], by simp [Win.push, hm]⟩

end Windows

namespace Linux

theorem emit_activate_defined (mem : tray) : ∀ (l : List Ptr) (s : Gtk),
    (∀ data ∈ l, ∃ c, _tray_menu_cb mem data = some c) →
    ∃ s2, emit_activate mem s l = some s2 ∧ s2.loop_result = s.loop_result ∧
      s2.events = s.events
  | [], s, _ => ⟨s, by simp [emit_activate]⟩
  | data :: rest, s, h => by
    obtain ⟨c, hc⟩ := h data (by simp)
    obtain ⟨s2, h1, h2, h3⟩ := emit_activate_defined mem rest { s with calls := s.calls ++ [c] }
      (fun d hd => h d (by simp [hd]))
    exact ⟨s2, by simp [emit_activate, hc, h1], h2, h3⟩

/-- Every handler connected by the binder has a record with a callback as data,
so its call is defined while the memory holds the tree. -/
theorem handlers_defined (t : tray) (w : GtkWidget) (hw : w ∈ allWidgets (_tray_menu [] t.menu))
    (data : Ptr) (hd : data ∈ w.activate) : ∃ c, _tray_menu_cb t data = some c := by
  rw [allWidgets_tray_menu] at hw
  obtain ⟨⟨a, n⟩, hx, rfl⟩ := List.mem_map.mp hw
  have h1 := (body_activate_sensitive a n (n.text.getD "")).1
  simp only [] at hd h1
  rw [h1] at hd
  split at hd
  · simp at hd
  · cases hcb : n.cb with
    | none => simp [hcb] at hd
    | some f =>
      have hderef := Windows.tray_deref_postOrder t (a, n) hx
      simp [hcb] at hd
      subst hd
      exact ⟨(f, data), by simp [_tray_menu_cb, hderef, hcb]⟩

theorem Linux_tray_init_state (s0 : Gtk) (t : tray) :
    (tray_init true s0 t).1 = 0 ∧
    (∃ ind, (tray_init true s0 t).2.indicator = some ind ∧
      ind.menu = some (_tray_menu [] t.menu)) ∧
    (tray_init true s0 t).2.loop_result = s0.loop_result ∧
    (tray_init true s0 t).2.events = s0.events := by
  simp [tray_init, tray_update]

/-- An iteration of the main loop on a state whose indicator menu is the one
built for the tray in memory: it returns when an event is pending, and then
`loop_result` is unchanged; with no event pending it returns only when not
blocking. -/
theorem gtk_main_iteration_do_bound (t : tray) (s : Gtk) (blocking : Int)
    (hind : ∃ ind, s.indicator = some ind ∧ ind.menu = some (_tray_menu [] t.menu)) :
    (s.events = [] → blocking ≠ 0 → gtk_main_iteration_do t s blocking = none) ∧
    (s.events = [] → blocking = 0 → gtk_main_iteration_do t s blocking = some s) ∧
    (s.events ≠ [] → ∃ s2, gtk_main_iteration_do t s blocking = some s2 ∧
      s2.loop_result = s.loop_result) := by
  obtain ⟨ind, h1, h2⟩ := hind
  refine ⟨?_, ?_, ?_⟩
  · intro he hb
    simp [gtk_main_iteration_do, he, hb]
  · intro he hb
    simp [gtk_main_iteration_do, he, hb]
  · intro he
    cases hev : s.events with
    | nil => exact absurd hev he
    | cons ev rest =>
      cases ev with
      | other =>
        exact ⟨{ s with events := rest }, by simp [gtk_main_iteration_do, hev], rfl⟩
      | activate loc =>
        simp only [gtk_main_iteration_do, hev, h1, h2]
        cases hw : widgetAt (_tray_menu [] t.menu) loc with
        | none => exact ⟨_, rfl, rfl⟩
        | some w =>
          obtain ⟨s2, e1, e2, _⟩ := emit_activate_defined t w.activate
            { indicator := some ind, loop_result := s.loop_result, events := rest,
              calls := s.calls }
            (fun d hd => handlers_defined t w (widgetAt_mem _ _ _ hw) d hd)
          exact ⟨s2, e1, e2⟩

end Linux

/-! ## The claims -/

namespace Windows

/-- C1. For every menu tree whose records the 32-bit counter can number
without wrapping, `_tray_menu` started at ID_TRAY_FIRST, as `tray_update`
runs it, gives every record of the tree that is not a separator, at every
depth, a handle; the WM_COMMAND dispatch for that handle calls the callback
of that record, when it has one, with the record as argument, and calls
nothing else; and two records with the same handle are the same record.
(The records of the tree are those of `tray.nodes`: a separator is a leaf,
what its `submenu` field points to is not bound and is not part of the
menu.) -/
theorem handles_distinct_and_resolve (env : Env) (s0 : Win) (t : tray)
    (hsize : ID_TRAY_FIRST + t.count < UINT_SIZE) :
    (∀ a n, (a, n) ∈ t.nodes → n.isSep = false →
      ∃ h, handle (_tray_menu [] t.menu ID_TRAY_FIRST).1 a = some h ∧
        ∀ lparam, _tray_wnd_proc env t (tray_update s0 t) WM_COMMAND h lparam =
          some (0, match n.cb with
                   | some f => (tray_update s0 t).push (.callback f a)
                   | none => tray_update s0 t)) ∧
    (∀ a b h, handle (_tray_menu [] t.menu ID_TRAY_FIRST).1 a = some h →
      handle (_tray_menu [] t.menu ID_TRAY_FIRST).1 b = some h → a = b) := by
  constructor
  · intro a n hmem hn
    rw [tray_mem_nodes_iff] at hmem
    obtain ⟨k, hk⟩ := List.mem_iff_getElem?.mp hmem
    refine ⟨ID_TRAY_FIRST + k, ?_, ?_⟩
    · rw [handle_eq_some_iff t hsize]
      exact ⟨k, n, hk, hn, rfl⟩
    · intro lparam
      exact dispatch_handle env _ t hsize (tray_update_hmenu s0 t) k a n hk hn lparam
  · intro a b h ha hb
    rw [handle_eq_some_iff t hsize] at ha hb
    obtain ⟨k1, n1, h1, _, e1⟩ := ha
    obtain ⟨k2, n2, h2, _, e2⟩ := hb
    have : k1 = k2 := by omega
    subst this
    rw [h1] at h2
    simp at h2
    exact h2.1

/-- Witness of C1: in the sample tray the record B of the submenu of P. -/
theorem handles_distinct_and_resolve_witness :
    ID_TRAY_FIRST + sample_tray.count < UINT_SIZE ∧
    ∃ h, handle (_tray_menu [] sample_tray.menu ID_TRAY_FIRST).1 [0, 2] = some h ∧
      ∀ lparam, _tray_wnd_proc sample_env sample_tray
          (tray_update (Win.start 1 []) sample_tray) WM_COMMAND h lparam =
        some (0, (tray_update (Win.start 1 []) sample_tray).push (.callback 2 [0, 2])) :=
  ⟨by decide,
   (handles_distinct_and_resolve sample_env (Win.start 1 []) sample_tray (by decide)).1
     [0, 2] sample_B
     (by simp [sample_tray, tray.nodes, nodes, nodesNode, sample_P, sample_A, sample_B,
          sample_sep, sample_end, tray_menu.text, isSeparator])
     (by decide)⟩

end Windows

/-- C2 as stated fails: the record D is disabled and has callback 7; the
WM_COMMAND dispatch of its handle 1000 on Windows calls the callback, and so
does the "activate" handler `_tray_menu_cb` on Linux. -/
theorem disabled_callback_counterexample :
    (sample_tray_D.deref [0]).map (fun n => (n.disabled, n.cb)) = some (1, some 7) ∧
    Windows.handle (Windows._tray_menu [] sample_tray_D.menu Windows.ID_TRAY_FIRST).1 [0] =
      some 1000 ∧
    (Windows._tray_wnd_proc sample_env sample_tray_D
        (Windows.tray_update (Windows.Win.start 1 []) sample_tray_D)
        Windows.WM_COMMAND 1000 0).map (fun r => Windows.callbacks r.2.log) =
      some [(7, [0])] ∧
    Linux._tray_menu_cb sample_tray_D [0] = some (7, [0]) := by
  decide

/-- C2, amended. Being disabled protects a callback at render time only. For
every bound tree and every record that is not a separator and has a
callback, disabled or not: the native entry is created disabled exactly when
`disabled != 0` (MFS_DISABLED on Windows, insensitive on Linux); and when the
activation of the record is delivered to the dispatch handler (WM_COMMAND
with its handle on Windows, `_tray_menu_cb` with the record on Linux) the
handler calls the callback with the record. -/
theorem disabled_only_rendered (env : Windows.Env) (s0 : Windows.Win) (t : tray)
    (hsize : Windows.ID_TRAY_FIRST + t.count < Windows.UINT_SIZE)
    (a : Ptr) (n : tray_menu) (f : Nat) (hmem : (a, n) ∈ t.nodes) (hsep : n.isSep = false)
    (hcb : n.cb = some f) :
    (∃ h, Windows.handle (Windows._tray_menu [] t.menu Windows.ID_TRAY_FIRST).1 a = some h ∧
      ∀ lparam, Windows._tray_wnd_proc env t (Windows.tray_update s0 t)
          Windows.WM_COMMAND h lparam =
        some (0, (Windows.tray_update s0 t).push (.callback f a))) ∧
    Linux._tray_menu_cb t a = some (f, a) ∧
    (∃ it ∈ Windows.allItems (Windows._tray_menu [] t.menu Windows.ID_TRAY_FIRST).1,
      it.dwItemData = some a ∧ (it.fState &&& Windows.MFS_DISABLED ≠ 0 ↔ n.disabled ≠ 0)) ∧
    (∃ w ∈ Linux.allWidgets (Linux._tray_menu [] t.menu),
      w.activate = [a] ∧ (w.sensitive = true ↔ n.disabled = 0)) := by
  have hderef := t.deref_of_mem_nodes a n hmem
  have hpo := (Windows.tray_mem_nodes_iff t (a, n)).mp hmem
  obtain ⟨k, hk⟩ := List.mem_iff_getElem?.mp hpo
  refine ⟨?_, ?_, ?_, ?_⟩
  · refine ⟨Windows.ID_TRAY_FIRST + k, ?_, ?_⟩
    · rw [Windows.handle_eq_some_iff t hsize]
      exact ⟨k, n, hk, hsep, rfl⟩
    · intro lparam
      have := Windows.dispatch_handle env _ t hsize (Windows.tray_update_hmenu s0 t)
        k a n hk hsep lparam
      rw [this, hcb]
  · simp [Linux._tray_menu_cb, hderef, hcb]
  · obtain ⟨it, hit, _, hd, hsh⟩ := Windows.item_of_record t hsize k a n hk hsep
    refine ⟨it, hit, hd, ?_⟩
    have e1 : it.fState = (Windows.expectedItem (Windows.ID_TRAY_FIRST + k, a, n)).fState := by
      rw [← hsh]; simp
    have e2 : (Windows.expectedItem (Windows.ID_TRAY_FIRST + k, a, n)).fState =
        (Windows._tray_menu_item a (n.text.getD "") n.disabled n.checked none 0).fState := by
      simp [Windows.expectedItem, hsep, Windows.ofInfo_item_none, Windows.MENUITEM.fState]
    rw [e1, e2]
    exact Windows.fState_disabled _ _ _ _
  · refine ⟨Linux.gtk_widget_show (Linux._tray_menu_body a n (n.text.getD "")), ?_, ?_⟩
    · rw [Linux.allWidgets_tray_menu]
      exact List.mem_map.mpr ⟨(a, n), hpo, rfl⟩
    · have hs2 : isSeparator (n.text.getD "") = false := by
        unfold tray_menu.isSep at hsep
        cases ht : n.text with
        | none => decide
        | some t => simpa [ht] using hsep
      obtain ⟨h1, h2⟩ := Linux.body_activate_sensitive a n (n.text.getD "")
      refine ⟨?_, ?_⟩
      · rw [h1, hs2, hcb]; simp
      · rw [h2 hs2]; simp

/-- Witness of the amended C2: the disabled record D of the sample tray. -/
theorem disabled_only_rendered_witness :
    Windows.ID_TRAY_FIRST + sample_tray_D.count < Windows.UINT_SIZE ∧
    ([0], sample_D) ∈ sample_tray_D.nodes ∧ sample_D.isSep = false ∧
    sample_D.cb = some 7 ∧ Linux._tray_menu_cb sample_tray_D [0] = some (7, [0]) := by
  have hmem : ([0], sample_D) ∈ sample_tray_D.nodes := by
    simp [sample_tray_D, tray.nodes, nodes, nodesNode, sample_D, sample_end, tray_menu.text]
  exact ⟨by decide, hmem, by decide, by decide,
    (disabled_only_rendered sample_env (Windows.Win.start 1 []) sample_tray_D (by decide)
      [0] sample_D 7 hmem (by decide) (by decide)).2.1⟩

namespace Windows

/-- C3. For every menu tree bound by the Windows `_tray_menu`, as `tray_update`
runs it, no separator record has a handle, every separator item of the
native menu has no item data and an identifier below ID_TRAY_FIRST, and the
WM_COMMAND dispatch of any command identifier either goes to DefWindowProc,
or does nothing, or calls the callback of a record that is not a separator
with that record as argument: a separator is never resolved and its
callback never called, even when its `cb` field is set.  This holds for
trees of any size, also when the 32-bit counter wraps. -/
theorem separators_never_resolve (env : Env) (s0 : Win) (t : tray) :
    (∀ a n, (a, n) ∈ t.nodes → n.isSep = true →
      handle (_tray_menu [] t.menu ID_TRAY_FIRST).1 a = none) ∧
    (∀ it ∈ allItems (_tray_menu [] t.menu ID_TRAY_FIRST).1, it.fType = MF_SEPARATOR →
      it.dwItemData = none ∧ it.wID < ID_TRAY_FIRST) ∧
    (∀ wparam lparam,
      _tray_wnd_proc env t (tray_update s0 t) WM_COMMAND wparam lparam =
        some (DefWindowProc (tray_update s0 t) WM_COMMAND wparam lparam) ∨
      _tray_wnd_proc env t (tray_update s0 t) WM_COMMAND wparam lparam =
        some (0, tray_update s0 t) ∨
      ∃ a n f, (a, n) ∈ t.nodes ∧ t.deref a = some n ∧ n.isSep = false ∧ n.cb = some f ∧
        _tray_wnd_proc env t (tray_update s0 t) WM_COMMAND wparam lparam =
          some (0, (tray_update s0 t).push (.callback f a))) := by
  refine ⟨?_, ?_, ?_⟩
  · intro a n hmem hn
    cases hh : handle (_tray_menu [] t.menu ID_TRAY_FIRST).1 a with
    | none => rfl
    | some h =>
      exfalso
      unfold handle at hh
      simp only [Option.map_eq_some'] at hh
      obtain ⟨it, hf, _⟩ := hh
      have hit := List.mem_of_find?_eq_some hf
      have hp := List.find?_some hf
      simp at hp
      rcases _tray_menu_items t ID_TRAY_FIRST it hit with h1 | ⟨_, x, hx, h2, h3⟩
      · have := (separator_shallow it h1).1
        rw [hp] at this
        simp at this
      · rw [hp] at h3
        simp at h3
        have e1 := t.deref_of_mem_nodes a n hmem
        have e2 := tray_deref_postOrder t x hx
        rw [← h3, e1] at e2
        simp at e2
        rw [← e2, hn] at h2
        simp at h2
  · intro it hit hty
    rcases _tray_menu_items t ID_TRAY_FIRST it hit with h1 | ⟨h1, _⟩
    · obtain ⟨e1, e2, _⟩ := separator_shallow it h1
      exact ⟨e1, by rw [e2]; decide⟩
    · rw [hty] at h1
      exact absurd h1 (by decide)
  · intro wparam lparam
    rw [_tray_wnd_proc_WM_COMMAND]
    unfold _tray_wnd_proc_command
    simp only [ge_iff_le, tray_update_hmenu s0 t]
    generalize wparam % UINT_SIZE = w
    by_cases hge : ID_TRAY_FIRST ≤ w
    · rw [if_pos hge]
      have hFALSE : ¬ (FALSE ≠ 0) := by decide
      have hmask : (MIIM_ID ||| MIIM_DATA) &&& MIIM_DATA ≠ 0 := by decide
      simp only [GetMenuItemInfo, if_neg hFALSE]
      cases hf : MENU_FindItem (_tray_menu [] t.menu ID_TRAY_FIRST).1 w 0 none with
      | none => exact Or.inr (Or.inl rfl)
      | some loc =>
        simp only []
        cases hi : itemAt (_tray_menu [] t.menu ID_TRAY_FIRST).1 loc with
        | none => exact Or.inr (Or.inl rfl)
        | some it =>
          simp only [MENUITEMINFO.zero, if_pos hmask]
          cases hd : it.dwItemData with
          | none => exact Or.inr (Or.inl rfl)
          | some a =>
            simp only []
            rcases _tray_menu_items t ID_TRAY_FIRST it (itemAt_mem _ _ _ hi) with
              h1 | ⟨_, x, hx, h2, h3⟩
            · have := (separator_shallow it h1).1
              rw [hd] at this
              simp at this
            · rw [hd] at h3
              simp at h3
              subst h3
              have e2 := tray_deref_postOrder t x hx
              simp only [e2]
              cases hcb : x.2.cb with
              | none => exact Or.inr (Or.inl rfl)
              | some f =>
                exact Or.inr (Or.inr ⟨x.1, x.2, f, (tray_mem_nodes_iff t x).mpr hx, e2, h2,
                  hcb, rfl⟩)
    · rw [if_neg hge]; exact Or.inl rfl

/-- Witness of C3: the separator of the sample tray has no handle. -/
theorem separators_never_resolve_witness :
    ([1], sample_sep) ∈ sample_tray.nodes ∧ sample_sep.isSep = true ∧
    handle (_tray_menu [] sample_tray.menu ID_TRAY_FIRST).1 [1] = none := by
  have hmem : ([1], sample_sep) ∈ sample_tray.nodes := by
    simp [sample_tray, tray.nodes, nodes, nodesNode, sample_P, sample_A, sample_B,
      sample_sep, sample_end, tray_menu.text, isSeparator]
  exact ⟨hmem, by decide,
    (separators_never_resolve sample_env (Win.start 1 []) sample_tray).1
      [1] sample_sep hmem (by decide)⟩

/-- C4 as stated fails: the handle 1000 that `_tray_menu` assigned to the record
A of the first tree is assigned again in the second tree, and after the
second `tray_update` its dispatch calls the callback of the record B of the
second tree. -/
theorem stale_handle_counterexample :
    handle (_tray_menu [] sample_tray_1.menu ID_TRAY_FIRST).1 [0] = some 1000 ∧
    (_tray_wnd_proc sample_env sample_tray_2
        (tray_update (tray_update (Win.start 1 []) sample_tray_1) sample_tray_2)
        WM_COMMAND 1000 0).map (fun r => callbacks r.2.log) = some [(2, [0])] := by
  decide

/-- C4, amended. After `tray_update(T1)` then `tray_update(T2)` the current menu
is the one built from T2 and DestroyMenu was called on the one built from
T1.  A handle assigned in T1 that T2 does not assign resolves to no record:
its dispatch calls nothing.  A handle assigned in T1 that T2 assigns too
resolves to the record of T2 that has it. -/
theorem second_update_supersedes (env : Env) (s0 : Win) (t1 t2 : tray)
    (h1 : ID_TRAY_FIRST + t1.count < UINT_SIZE) (h2 : ID_TRAY_FIRST + t2.count < UINT_SIZE) :
    (tray_update (tray_update s0 t1) t2).hmenu =
      some (_tray_menu [] t2.menu ID_TRAY_FIRST).1 ∧
    Effect.DestroyMenu (_tray_menu [] t1.menu ID_TRAY_FIRST).1 ∈
      (tray_update (tray_update s0 t1) t2).log ∧
    (∀ a h, handle (_tray_menu [] t1.menu ID_TRAY_FIRST).1 a = some h →
      ((∀ b, handle (_tray_menu [] t2.menu ID_TRAY_FIRST).1 b ≠ some h) →
        ∀ lparam, _tray_wnd_proc env t2 (tray_update (tray_update s0 t1) t2)
          WM_COMMAND h lparam = some (0, tray_update (tray_update s0 t1) t2)) ∧
      (∀ b n, handle (_tray_menu [] t2.menu ID_TRAY_FIRST).1 b = some h → (b, n) ∈ t2.nodes →
        ∀ lparam, _tray_wnd_proc env t2 (tray_update (tray_update s0 t1) t2)
          WM_COMMAND h lparam =
            some (0, match n.cb with
                     | some f => (tray_update (tray_update s0 t1) t2).push (.callback f b)
                     | none => tray_update (tray_update s0 t1) t2))) := by
  refine ⟨tray_update_hmenu _ _, ?_, ?_⟩
  · obtain ⟨l, hl⟩ := tray_update_log (tray_update s0 t1) t2 _ (tray_update_hmenu s0 t1)
    rw [hl]; simp
  · intro a h ha
    rw [handle_eq_some_iff t1 h1] at ha
    obtain ⟨k, n1, hk, hn1, hh⟩ := ha
    have hklt : k < t1.count := by
      rw [← tray_postOrder_length]
      exact (List.getElem?_eq_some.mp hk).1
    have hmod : h % UINT_SIZE = h := Nat.mod_eq_of_lt (by omega)
    constructor
    · intro hno lparam
      rw [_tray_wnd_proc_WM_COMMAND,
        _tray_wnd_proc_command_eq t2 h2 _ (tray_update_hmenu _ t2), hmod, if_pos (by omega)]
      cases hl : t2.postOrder[h - ID_TRAY_FIRST]? with
      | none => rfl
      | some x =>
        obtain ⟨b, n⟩ := x
        simp only []
        by_cases hn : n.isSep = true
        · rw [if_pos hn]
        · exfalso
          apply hno b
          rw [handle_eq_some_iff t2 h2]
          exact ⟨h - ID_TRAY_FIRST, n, hl, by simpa using hn, by omega⟩
    · intro b n hb hmem lparam
      rw [handle_eq_some_iff t2 h2] at hb
      obtain ⟨k2, n2, hk2, hn2, hh2⟩ := hb
      have e1 := t2.deref_of_mem_nodes b n hmem
      have e2 := tray_deref_postOrder t2 (b, n2) (List.getElem?_mem hk2)
      simp only [e1] at e2
      simp at e2
      subst e2
      rw [hh2]
      exact dispatch_handle env _ t2 h2 (tray_update_hmenu _ t2) k2 b n hk2 hn2 lparam

/-- Witness of the amended C4: the two sample trees A and B, A. -/
theorem second_update_supersedes_witness :
    ID_TRAY_FIRST + sample_tray_1.count < UINT_SIZE ∧
    ID_TRAY_FIRST + sample_tray_2.count < UINT_SIZE ∧
    (tray_update (tray_update (Win.start 1 []) sample_tray_1) sample_tray_2).hmenu =
      some (_tray_menu [] sample_tray_2.menu ID_TRAY_FIRST).1 :=
  ⟨by decide, by decide,
   (second_update_supersedes sample_env (Win.start 1 []) sample_tray_1 sample_tray_2
     (by decide) (by decide)).1⟩

/-- C5 as stated fails: in the sample tray P, separator, B with the submenu
A, separator, B under P, the records that are not separators are, in
pre-order, P, A, B, B; P, the first, gets the handle 1003 and not 1000, the
record A of its submenu gets the smaller handle 1000, and the last B gets
1005 because the two separators took 1001 and 1004. -/
theorem preorder_numbering_counterexample :
    ((sample_tray.nodes.filter (fun x => !x.2.isSep)).map Prod.fst =
      [[0], [0, 0], [0, 2], [2]]) ∧
    handle (_tray_menu [] sample_tray.menu ID_TRAY_FIRST).1 [0] = some 1003 ∧
    handle (_tray_menu [] sample_tray.menu ID_TRAY_FIRST).1 [0, 0] = some 1000 ∧
    handle (_tray_menu [] sample_tray.menu ID_TRAY_FIRST).1 [0, 2] = some 1002 ∧
    handle (_tray_menu [] sample_tray.menu ID_TRAY_FIRST).1 [2] = some 1005 := by
  decide

/-- C5, amended. Handle allocation is the post-order numbering from
ID_TRAY_FIRST with separators counted: the k-th record (k = 0, 1, 2, ...,
separators included) of the tree in depth-first post-order, the records of a
submenu before the record that owns it, gets the handle ID_TRAY_FIRST + k
when it is not a separator; so every record with a submenu has a larger
handle than each record below it, and every separator uses up one integer. -/
theorem postorder_numbering (t : tray) (hsize : ID_TRAY_FIRST + t.count < UINT_SIZE) :
    (∀ k a n, t.postOrder[k]? = some (a, n) → n.isSep = false →
      handle (_tray_menu [] t.menu ID_TRAY_FIRST).1 a = some (ID_TRAY_FIRST + k)) ∧
    (∀ k a n, t.postOrder[k]? = some (a, n) → n.isSep = true →
      handle (_tray_menu [] t.menu ID_TRAY_FIRST).1 a = none ∧
      ∀ b, handle (_tray_menu [] t.menu ID_TRAY_FIRST).1 b ≠ some (ID_TRAY_FIRST + k)) ∧
    (∀ a j q h1 h2, handle (_tray_menu [] t.menu ID_TRAY_FIRST).1 a = some h1 →
      handle (_tray_menu [] t.menu ID_TRAY_FIRST).1 (a ++ j :: q) = some h2 → h2 < h1) := by
  refine ⟨?_, ?_, ?_⟩
  · intro k a n hk hn
    rw [handle_eq_some_iff t hsize]
    exact ⟨k, n, hk, hn, rfl⟩
  · intro k a n hk hn
    constructor
    · cases hh : handle (_tray_menu [] t.menu ID_TRAY_FIRST).1 a with
      | none => rfl
      | some h =>
        rw [handle_eq_some_iff t hsize] at hh
        obtain ⟨k2, n2, hk2, hn2, _⟩ := hh
        have := postOrder_index_unique _ _ _ k k2 (a, n) (a, n2) hk hk2 rfl
        subst this
        rw [hk] at hk2
        simp at hk2
        subst hk2
        rw [hn] at hn2
        simp at hn2
    · intro b hb
      rw [handle_eq_some_iff t hsize] at hb
      obtain ⟨k2, n2, hk2, hn2, e⟩ := hb
      have : k = k2 := by omega
      subst this
      rw [hk] at hk2
      simp at hk2
      rw [hk2.2] at hn
      rw [hn] at hn2
      simp at hn2
  · intro a j q h1 h2 ha hb
    rw [handle_eq_some_iff t hsize] at ha hb
    obtain ⟨k1, n1, hk1, _, e1⟩ := ha
    obtain ⟨k2, n2, hk2, _, e2⟩ := hb
    have := postOrder_descendant_before _ _ _ k1 k2 (a, n1) (a ++ j :: q, n2) hk1 hk2 j q rfl
    omega

/-- Witness of the amended C5: the record P of the sample tray is the fourth
record in post-order. -/
theorem postorder_numbering_witness :
    ID_TRAY_FIRST + sample_tray.count < UINT_SIZE ∧
    handle (_tray_menu [] sample_tray.menu ID_TRAY_FIRST).1 [0] = some (ID_TRAY_FIRST + 3) :=
  ⟨by decide,
   (postorder_numbering sample_tray (by decide)).1 3 [0] sample_P
     (by simp [sample_tray, tray.postOrder, postOrder, postOrderNode, sample_P, sample_A,
          sample_B, sample_sep, sample_end, tray_menu.text, isSeparator])
     (by decide)⟩

end Windows

/-- C6. For every sibling sequence (the records of an array before the first
one with a NULL text), bound by `_tray_menu` on Linux, or on Windows from a
counter value at or above ID_TRAY_FIRST that does not wrap, the native menu
has one entry per record, in the same order; the entry of record `j` is a
separator exactly when the text of the record is "-", and then it carries
no callback data and no submenu, whatever the other fields of the record;
the entry of another record carries the text of the record (and on Windows
its address), and its submenu is what `_tray_menu` builds for the submenu of
the record, so the same holds at every depth. -/
theorem binding_preserves_order (m : List tray_menu) (p : Ptr) (id : Nat)
    (hid : Windows.ID_TRAY_FIRST ≤ id) (hsize : id + count m < Windows.UINT_SIZE) :
    ((Linux._tray_menu p (some m)).length = (siblings m).length ∧
     ∀ (j : Nat) (e : tray_menu), (siblings m)[j]? = some e →
       ∃ w : Linux.GtkWidget, (Linux._tray_menu p (some m))[j]? = some w ∧
         (w.kind = .separator_menu_item ↔ e.isSep = true) ∧
         (e.isSep = true → w.activate = [] ∧ w.submenu = none ∧ w.label = none) ∧
         (e.isSep = false → w.label = e.text ∧
           w.submenu = e.submenu.map (fun s => Linux._tray_menu (p ++ [j]) (some s)))) ∧
    ((Windows._tray_menu p (some m) id).1.length = (siblings m).length ∧
     ∀ (j : Nat) (e : tray_menu), (siblings m)[j]? = some e →
       ∃ it : Windows.MENUITEM, (Windows._tray_menu p (some m) id).1[j]? = some it ∧
         (it.fType = Windows.MF_SEPARATOR ↔ e.isSep = true) ∧
         (e.isSep = true → it.dwItemData = none ∧ it.hSubMenu = none) ∧
         (e.isSep = false → it.dwItemData = some (p ++ [j]) ∧ it.dwTypeData = e.text ∧
           ∃ id2, Windows.ID_TRAY_FIRST ≤ id2 ∧
             id2 + (e.submenu.map count).getD 0 < Windows.UINT_SIZE ∧
             it.hSubMenu =
               e.submenu.map (fun s => (Windows._tray_menu (p ++ [j]) (some s) id2).1))) := by
  constructor
  · rw [Linux.Linux_tray_menu_eq]
    refine ⟨Linux.widgetsOf_length m p 0, ?_⟩
    intro j e hj
    obtain ⟨t, ht, hw⟩ := Linux.widgetsOf_getElem m p 0 j e hj
    rw [Nat.zero_add] at hw
    refine ⟨_, hw, ?_⟩
    have hsep := isSep_of_text e t ht
    by_cases hs : isSeparator t = true
    · rw [Linux.body_separator _ _ _ hs, hsep, hs]
      simp [Linux.GtkWidget.kind, Linux.GtkWidget.activate, Linux.GtkWidget.submenu,
        Linux.GtkWidget.label]
    · have hs2 : isSeparator t = false := by simpa using hs
      rw [hsep, hs2]
      cases e with
      | mk x d c f y s =>
        simp only [tray_menu.text] at ht
        subst ht
        cases s with
        | some s =>
          rw [Linux.body_submenu _ _ _ _ _ _ _ _ hs2]
          simp [Linux.GtkWidget.kind, Linux.GtkWidget.submenu, Linux.GtkWidget.label,
            tray_menu.text, tray_menu.submenu]
        | none =>
          by_cases hc : c = -1
          · subst hc
            rw [Linux.body_plain _ _ _ _ _ _ hs2]
            simp [Linux.GtkWidget.kind, Linux.GtkWidget.submenu, Linux.GtkWidget.label,
              tray_menu.text, tray_menu.submenu]
          · rw [Linux.body_check _ _ _ _ _ _ _ hs2 hc]
            simp [Linux.GtkWidget.kind, Linux.GtkWidget.submenu, Linux.GtkWidget.label,
              tray_menu.text, tray_menu.submenu]
  · rw [Windows.Windows_tray_menu_some_eq p m id hid hsize]
    refine ⟨Windows.menuOf_length m p 0 id, ?_⟩
    intro j e hj
    obtain ⟨t, id2, ht, h1, h2, hw⟩ := Windows.menuOf_getElem m p 0 id j e hj
    rw [Nat.zero_add] at hw
    refine ⟨_, hw, ?_⟩
    have hsep := isSep_of_text e t ht
    by_cases hs : isSeparator t = true
    · rw [Windows.itemOf_separator _ _ _ _ hs, hsep, hs, Windows.separatorItem_eq]
      simp [Windows.MENUITEM.fType, Windows.MENUITEM.dwItemData, Windows.MENUITEM.hSubMenu]
    · have hs2 : isSeparator t = false := by simpa using hs
      rw [hsep, hs2]
      cases e with
      | mk x d c f y s =>
        simp only [tray_menu.text] at ht
        subst ht
        cases s with
        | some s =>
          rw [Windows.itemOf_submenu _ _ _ _ _ _ _ _ _ hs2]
          simp only [countNode, hs2] at h2
          have hcs : id2 + count s < Windows.UINT_SIZE := by
            simp at h2; omega
          refine ⟨by simp [Windows.MENUITEM.fType, Windows.MF_SEPARATOR], by simp, ?_⟩
          intro _
          refine ⟨rfl, rfl, id2, by omega, by simpa [tray_menu.submenu] using hcs, ?_⟩
          simp [Windows.MENUITEM.hSubMenu, tray_menu.submenu,
            Windows.Windows_tray_menu_some_eq _ s id2 (by omega) hcs]
        | none =>
          rw [Windows.itemOf_leaf _ _ _ _ _ _ _ _ hs2]
          refine ⟨by simp [Windows.MENUITEM.fType, Windows.MF_SEPARATOR], by simp, ?_⟩
          intro _
          refine ⟨rfl, rfl, id2, by omega, ?_, ?_⟩
          · simp only [tray_menu.submenu, Option.map_none', Option.getD_none]
            have := countNode_pos (.mk (some t) d c f y none) t
            omega
          · simp [Windows.MENUITEM.hSubMenu, tray_menu.submenu]

/-- Witness of C6: the submenu A, "-", B of the record P of the sample tray
yields three entries in that order, entry(A), a divider, entry(B), on Linux
and on Windows. -/
theorem binding_preserves_order_witness :
    Windows.ID_TRAY_FIRST ≤ 1000 ∧
    1000 + count [sample_A, sample_sep, sample_B, sample_end] < Windows.UINT_SIZE ∧
    (Linux._tray_menu [0] (some [sample_A, sample_sep, sample_B, sample_end])).length =
      (siblings [sample_A, sample_sep, sample_B, sample_end]).length ∧
    (∃ w : Linux.GtkWidget,
      (Linux._tray_menu [0] (some [sample_A, sample_sep, sample_B, sample_end]))[1]? =
        some w ∧ (w.kind = .separator_menu_item ↔ sample_sep.isSep = true)) ∧
    (∃ it : Windows.MENUITEM,
      (Windows._tray_menu [0] (some [sample_A, sample_sep, sample_B, sample_end])
        1000).1[1]? = some it ∧
      (it.fType = Windows.MF_SEPARATOR ↔ sample_sep.isSep = true)) ∧
    (Linux._tray_menu [0] (some [sample_A, sample_sep, sample_B, sample_end])).map
        (fun w => (w.kind, w.label, w.activate)) =
      [(.menu_item, some "A", [[0, 0]]), (.separator_menu_item, none, []),
       (.check_menu_item, some "B", [[0, 2]])] ∧
    (Windows._tray_menu [0] (some [sample_A, sample_sep, sample_B, sample_end]) 1000).1.map
        (fun it => (it.fType, it.dwTypeData, it.dwItemData)) =
      [(0, some "A", some [0, 0]), (Windows.MF_SEPARATOR, none, none),
       (0, some "B", some [0, 2])] := by
  have h := binding_preserves_order [sample_A, sample_sep, sample_B, sample_end] [0] 1000
    (by decide) (by decide)
  have hj : (siblings [sample_A, sample_sep, sample_B, sample_end])[1]? = some sample_sep := by
    simp [siblings, sample_A, sample_sep, sample_B, sample_end, tray_menu.text]
  refine ⟨by decide, by decide, h.1.1, ?_, ?_, by decide, by decide⟩
  · obtain ⟨w, h1, h2, _⟩ := h.1.2 1 sample_sep hj
    exact ⟨w, h1, h2⟩
  · obtain ⟨it, h1, h2, _⟩ := h.2.2 1 sample_sep hj
    exact ⟨it, h1, h2⟩

/-- C7 as stated fails on Linux for a record with a submenu: the record Q is
marked checked (`checked = 1`) and is not a separator, and the entry built
for it is a plain menu item without toggle state, not a check item. -/
theorem checked_submenu_counterexample :
    sample_Q.checked = 1 ∧ sample_Q.isSep = false ∧
    ((Linux._tray_menu [] (some [sample_Q, sample_end]))[0]?).map
      (fun w => (w.kind, w.active)) = some (Linux.GtkKind.menu_item, false) := by
  decide

/-- C7, amended. For every record that is not a separator, bound by
`_tray_menu`: on Linux, when the record has no submenu, `checked` 0 or 1
gives a check item that is active exactly when `checked = 1` and `checked =
-1` gives a plain item without toggle state, and when the record has a
submenu the entry is a plain item without toggle state whatever `checked`
is; on Windows (counter at or above ID_TRAY_FIRST, not wrapping) the entry,
with or without submenu, has the state MFS_CHECKED exactly when `checked =
1` for `checked` 0 or 1, and does not have it for `checked = -1`. -/
theorem check_state_mirrored (m : List tray_menu) (p : Ptr) (j : Nat) (e : tray_menu)
    (hj : (siblings m)[j]? = some e) (hsep : e.isSep = false) :
    (∃ w : Linux.GtkWidget, (Linux._tray_menu p (some m))[j]? = some w ∧
      (e.submenu = none → (e.checked = 0 ∨ e.checked = 1) →
        w.kind = .check_menu_item ∧ (w.active = true ↔ e.checked = 1)) ∧
      (e.submenu = none → e.checked = -1 → w.kind = .menu_item ∧ w.active = false) ∧
      (e.submenu ≠ none → w.kind = .menu_item ∧ w.active = false)) ∧
    (∀ id, Windows.ID_TRAY_FIRST ≤ id → id + count m < Windows.UINT_SIZE →
      ∃ it : Windows.MENUITEM, (Windows._tray_menu p (some m) id).1[j]? = some it ∧
        ((e.checked = 0 ∨ e.checked = 1) →
          (it.fState &&& Windows.MFS_CHECKED ≠ 0 ↔ e.checked = 1)) ∧
        (e.checked = -1 → it.fState &&& Windows.MFS_CHECKED = 0)) := by
  constructor
  · rw [Linux.Linux_tray_menu_eq]
    obtain ⟨t, ht, hw⟩ := Linux.widgetsOf_getElem m p 0 j e hj
    rw [Nat.zero_add] at hw
    refine ⟨_, hw, ?_⟩
    have hs2 : isSeparator t = false := by rw [← isSep_of_text e t ht]; exact hsep
    cases e with
    | mk x d c f y s =>
      cases s with
      | some s =>
        rw [Linux.body_submenu _ _ _ _ _ _ _ _ hs2]
        simp [tray_menu.submenu, Linux.GtkWidget.kind, Linux.GtkWidget.active]
      | none =>
        by_cases hc : c = -1
        · subst hc
          rw [Linux.body_plain _ _ _ _ _ _ hs2]
          simp [tray_menu.submenu, tray_menu.checked, Linux.GtkWidget.kind,
            Linux.GtkWidget.active]
        · rw [Linux.body_check _ _ _ _ _ _ _ hs2 hc]
          simp only [tray_menu.submenu, tray_menu.checked, Linux.GtkWidget.kind,
            Linux.GtkWidget.active]
          refine ⟨?_, ?_, ?_⟩
          · intro _ h01
            refine ⟨trivial, ?_⟩
            rcases h01 with h | h <;> simp [h]
          · intro _ h; exact absurd h hc
          · intro h; exact absurd rfl h
  · intro id hid hsize
    rw [Windows.Windows_tray_menu_some_eq p m id hid hsize]
    obtain ⟨t, id2, ht, _, _, hw⟩ := Windows.menuOf_getElem m p 0 id j e hj
    rw [Nat.zero_add] at hw
    refine ⟨_, hw, ?_⟩
    have hs2 : isSeparator t = false := by rw [← isSep_of_text e t ht]; exact hsep
    have key : ∀ (it : Windows.MENUITEM) (c : Int),
        (it.fState &&& Windows.MFS_CHECKED ≠ 0 ↔ (c ≠ 0 ∧ c ≠ -1)) →
        ((c = 0 ∨ c = 1) → (it.fState &&& Windows.MFS_CHECKED ≠ 0 ↔ c = 1)) ∧
        (c = -1 → it.fState &&& Windows.MFS_CHECKED = 0) := by
      intro it c h
      constructor
      · intro h01
        rw [h]
        rcases h01 with h0 | h0 <;> simp [h0]
      · intro hm
        by_contra hcon
        have := h.mp hcon
        exact this.2 hm
    cases e with
    | mk x d c f y s =>
      cases s with
      | some s =>
        rw [Windows.itemOf_submenu _ _ _ _ _ _ _ _ _ hs2]
        exact key _ c (Windows.fState_checked _ t d c)
      | none =>
        rw [Windows.itemOf_leaf _ _ _ _ _ _ _ _ hs2]
        exact key _ c (Windows.fState_checked _ t d c)

/-- Witness of the amended C7: the checkable record B of the sample submenu. -/
theorem check_state_mirrored_witness :
    (siblings [sample_A, sample_sep, sample_B, sample_end])[2]? = some sample_B ∧
    sample_B.isSep = false ∧
    ∃ w : Linux.GtkWidget,
      (Linux._tray_menu [0] (some [sample_A, sample_sep, sample_B, sample_end]))[2]? = some w ∧
      (sample_B.submenu = none → (sample_B.checked = 0 ∨ sample_B.checked = 1) →
        w.kind = .check_menu_item ∧ (w.active = true ↔ sample_B.checked = 1)) := by
  have hj : (siblings [sample_A, sample_sep, sample_B, sample_end])[2]? = some sample_B := by
    simp [siblings, sample_A, sample_sep, sample_B, sample_end, tray_menu.text]
  obtain ⟨w, h1, h2, _⟩ :=
    (check_state_mirrored [sample_A, sample_sep, sample_B, sample_end] [0] 2 sample_B hj
      (by decide)).1
  exact ⟨hj, by decide, w, h1, h2⟩

/-- C8 as stated fails on Windows when another message is pending: after a
successful `tray_init` and `tray_exit` with a timer message waiting in the
queue of the thread, the next `tray_loop(1)` retrieves that message and
returns 0, not -1. -/
theorem exit_with_pending_message_counterexample :
    (Windows.tray_init sample_env (Windows.Win.start 1 [sample_msg]) sample_tray).1 = 0 ∧
    (Windows.tray_loop sample_env sample_tray
        (Windows.tray_exit
          (Windows.tray_init sample_env (Windows.Win.start 1 [sample_msg]) sample_tray).2 1)
        1 sample_msg).map Prod.fst = some 0 := by
  decide

/-- C8, amended. After a successful `tray_init` followed by `tray_exit` (called
on the pumping thread) and no pump in between: on Linux the next
`tray_loop(1)` returns -1 when an event is pending and waits while none is;
on Windows the quit request is pending and the menu is gone, and in every
such state `tray_loop(1)` (GetMessage not failing) returns -1 when no other
message is pending or the oldest one is WM_QUIT, and otherwise removes and
dispatches the oldest message and returns 0, the quit request staying
pending: -1 is returned by the pump that finds no other message ahead. -/
theorem exit_before_pump (gs0 : Linux.Gtk) (env0 env : Windows.Env) (ws0 : Windows.Win)
    (t mem : tray) (msg : Windows.MSG) (hget : env.GetMessageFails = false) :
    ((Linux.tray_init true gs0 t).1 = 0 ∧
     (gs0.events = [] →
       Linux.tray_loop t (Linux.tray_exit (Linux.tray_init true gs0 t).2) 1 = none) ∧
     (gs0.events ≠ [] →
       ∃ s2, Linux.tray_loop t (Linux.tray_exit (Linux.tray_init true gs0 t).2) 1 =
         some (-1, s2))) ∧
    ((Windows.tray_exit (Windows.tray_init env0 ws0 t).2 ws0.thread).quitPosted = true ∧
     (Windows.tray_exit (Windows.tray_init env0 ws0 t).2 ws0.thread).hmenu = none ∧
     (Windows.tray_exit (Windows.tray_init env0 ws0 t).2 ws0.thread).queue = ws0.queue) ∧
    (∀ s : Windows.Win, s.quitPosted = true → s.hmenu = none →
      (s.queue = [] → ∃ s2, Windows.tray_loop env mem s 1 msg = some (-1, s2)) ∧
      (∀ m rest, s.queue = m :: rest → m.message = Windows.WM_QUIT →
        ∃ s2, Windows.tray_loop env mem s 1 msg = some (-1, s2)) ∧
      (∀ m rest, s.queue = m :: rest → m.message ≠ Windows.WM_QUIT →
        ∃ s2, Windows.tray_loop env mem s 1 msg = some (0, s2) ∧ s2.queue = rest ∧
          s2.quitPosted = true ∧ s2.hmenu = none)) := by
  refine ⟨?_, ?_, ?_⟩
  · obtain ⟨h0, hind, hlr, hev⟩ := Linux.Linux_tray_init_state gs0 t
    have hind2 : ∃ ind, (Linux.tray_exit (Linux.tray_init true gs0 t).2).indicator = some ind ∧
        ind.menu = some (Linux._tray_menu [] t.menu) := by
      simpa [Linux.tray_exit] using hind
    have hev2 : (Linux.tray_exit (Linux.tray_init true gs0 t).2).events = gs0.events := by
      simpa [Linux.tray_exit] using hev
    obtain ⟨k1, _, k3⟩ := Linux.gtk_main_iteration_do_bound t _ 1 hind2
    refine ⟨h0, ?_, ?_⟩
    · intro he
      simp [Linux.tray_loop, k1 (by rw [hev2]; exact he) (by decide)]
    · intro he
      obtain ⟨s2, e1, e2⟩ := k3 (by rw [hev2]; exact he)
      refine ⟨s2, ?_⟩
      simp only [Linux.tray_loop, e1, e2]
      simp [Linux.tray_exit]
  · have h1 := Windows.tray_exit_state (Windows.tray_init env0 ws0 t).2
    have h2 := Windows.tray_init_queue_thread env0 ws0 t
    rw [h2.2] at h1
    exact ⟨h1.1, h1.2.1, by rw [h1.2.2, h2.1]⟩
  · intro s hq hm
    exact Windows.tray_loop_exited env mem s msg hget hq hm

/-- Witness of the amended C8: after `tray_init` and `tray_exit` with nothing
pending the Windows pump returns -1. -/
theorem exit_before_pump_witness :
    (Windows.tray_init sample_env (Windows.Win.start 1 []) sample_tray).1 = 0 ∧
    sample_env.GetMessageFails = false ∧
    ∃ s2, Windows.tray_loop sample_env sample_tray
      (Windows.tray_exit (Windows.tray_init sample_env (Windows.Win.start 1 []) sample_tray).2
        (Windows.Win.start 1 []).thread) 1 sample_msg = some (-1, s2) := by
  have h := exit_before_pump (Linux.Gtk.start []) sample_env sample_env (Windows.Win.start 1 [])
    sample_tray sample_tray sample_msg (by decide)
  exact ⟨by decide, by decide, (h.2.2 _ h.2.1.1 h.2.1.2.1).1 h.2.1.2.2⟩

/-- C9 fails on the code. State: a session just initialised, no message
pending, no quit request. `tray_loop(0)` ignores the result of PeekMessage
and goes on with whatever the local `msg` holds: when the stack slot still
holds an earlier WM_COMMAND message for the tray window the message is
translated and dispatched again and the callback of the record A is called;
when it holds an earlier WM_QUIT the call returns -1. -/
theorem nonblocking_pump_stale_message :
    (Windows.tray_init sample_env (Windows.Win.start 1 []) sample_tray_1).2.queue = [] ∧
    (Windows.tray_init sample_env (Windows.Win.start 1 []) sample_tray_1).2.quitPosted = false ∧
    Windows.callbacks
      (Windows.tray_init sample_env (Windows.Win.start 1 []) sample_tray_1).2.log = [] ∧
    (Windows.tray_loop sample_env sample_tray_1
        (Windows.tray_init sample_env (Windows.Win.start 1 []) sample_tray_1).2
        0 sample_command_msg).map (fun r => (r.1, Windows.callbacks r.2.log)) =
      some (0, [(1, [0])]) ∧
    (Windows.tray_loop sample_env sample_tray_1
        (Windows.tray_init sample_env (Windows.Win.start 1 []) sample_tray_1).2
        0 sample_quit_msg).map Prod.fst = some (-1) := by
  decide

/-- C10 fails on the code. After `tray_init`, `tray_exit`, `tray_init` (both
returning 0) a `tray_loop` call with no further `tray_exit` returns -1:
`tray_exit` set the static `loop_result` to -1 and `tray_init` does not
reset it. -/
theorem reinit_keeps_stop :
    (Linux.tray_init true (Linux.Gtk.start []) sample_tray).1 = 0 ∧
    (Linux.tray_init true
      (Linux.tray_exit (Linux.tray_init true (Linux.Gtk.start []) sample_tray).2)
      sample_tray).1 = 0 ∧
    (Linux.tray_loop sample_tray
      (Linux.tray_init true
        (Linux.tray_exit (Linux.tray_init true (Linux.Gtk.start []) sample_tray).2)
        sample_tray).2 0).map Prod.fst = some (-1) := by
  decide

end Tray
